import Mathlib

/-!
# Verification of the SB-account reconciliation importer

A shallow embedding of `be/scripts/upload_sb_accounts.py` and proofs of the
specification's claims about it.

Modelling conventions:
* A spreadsheet cell is `Cell`: either a missing value (`null`, covering
  Python `None`, on which `pd.isna` is true), a float NaN cell (`nan`, on
  which `pd.isna` is also true), or a value given by its Python string image
  `str(value)` (`str s`).  The script consumes every non-missing cell
  exclusively through `str(value)` after the `pd.isna` test, so quantifying
  over the string image loses no behaviour.
* Python `Decimal` values are `Dec`: a finite decimal is an exact rational,
  plus quiet NaN, signalling NaN and signed infinity, all of which the
  `Decimal` string constructor can produce.  Decimal equality in Python is
  numeric (exponent-insensitive), which the rational model matches.
* Character classification (digits, whitespace, lower-casing) is modelled at
  ASCII granularity.
-/

/-- Whitespace characters stripped by Python's `str.strip` and by the
`Decimal` constructor (ASCII range). -/
def pyIsSpace (c : Char) : Bool :=
  c = ' ' || c = '\t' || c = '\n' || c = '\r' || c = '\x0b' || c = '\x0c'

/-- Strip leading and trailing characters satisfying `p` from a list:
the list-level engine of Python's `str.strip`. -/
def stripList (p : Char → Bool) (l : List Char) : List Char :=
  ((l.dropWhile p).reverse.dropWhile p).reverse

/-- Python `str.strip()` (ASCII whitespace). -/
def pyStrip (s : String) : String :=
  ⟨stripList pyIsSpace s.data⟩

/-- A spreadsheet cell as the script sees it via `row.get(...)`. -/
inductive Cell
  | null
  | nan
  | str (s : String)
deriving DecidableEq

/-- `clean_string` from `upload_sb_accounts.py`: `None` when the cell is
missing/NaN or its stripped string image is the literal `"NaN"`, otherwise
the stripped string image. -/
def clean_string : Cell → Option String
  | Cell.null => none
  | Cell.nan => none
  | Cell.str s => if pyStrip s = "NaN" then none else some (pyStrip s)

/-- A Python `Decimal` value: exact finite rationals plus the non-finite
values the `Decimal` string constructor can produce. -/
inductive Dec
  | fin (q : ℚ)
  | qnan
  | snan
  | inf (neg : Bool)
deriving DecidableEq

/-- ASCII lower-casing, as applied for the case-insensitive alphabetic parts
of the decimal numeric-string grammar. -/
def asciiLower (c : Char) : Char :=
  if 'A' ≤ c && c ≤ 'Z' then Char.ofNat (c.toNat + 32) else c

/-- Numeric value of a (known-valid) digit list, most significant first. -/
def digitsVal (l : List Char) : ℕ :=
  l.foldl (fun n c => n * 10 + (c.toNat - '0'.toNat)) 0

/-- Parse an optional leading sign; returns whether negative and the rest. -/
def parseSign : List Char → Bool × List Char
  | '+' :: t => (false, t)
  | '-' :: t => (true, t)
  | l => (false, l)

/-- Parse the `decimal-part` of the decimal numeric-string grammar:
`digits ['.' [digits]]` or `'.' digits`.  The pair is the digit string read
as an integer together with the length of the fractional part, so the
denoted value is the first component divided by ten to the second. -/
def parseMantissa (l : List Char) : Option (ℕ × ℕ) :=
  match l.span (fun c => c != '.') with
  | (ip, []) =>
      if ip.all Char.isDigit && !ip.isEmpty then some (digitsVal ip, 0) else none
  | (ip, _ :: fp) =>
      if ip.all Char.isDigit && fp.all Char.isDigit && !(ip.isEmpty && fp.isEmpty)
      then some (digitsVal (ip ++ fp), fp.length)
      else none

/-- Parse the exponent digits (after the `e` indicator): `[sign] digits`. -/
def parseExponent (l : List Char) : Option ℤ :=
  let (neg, d) := parseSign l
  if d.all Char.isDigit && !d.isEmpty
  then some (if neg then -(digitsVal d : ℤ) else (digitsVal d : ℤ))
  else none

/-- Signed finite decimal `± mantissa / 10 ^ fracLen · 10 ^ e`, computed
with integer arithmetic and one exact division. -/
def mkFin (neg : Bool) (m : ℕ × ℕ) (e : ℤ) : Dec :=
  let n : ℤ := if neg then -(m.1 : ℤ) else (m.1 : ℤ)
  if 0 ≤ e then Dec.fin (Rat.divInt (n * 10 ^ e.toNat) (10 ^ m.2))
  else Dec.fin (Rat.divInt n (10 ^ m.2 * 10 ^ (-e).toNat))

/-- The body of the decimal numeric-string grammar after sign removal and
lower-casing: infinities, NaNs (optionally with a digit payload), or a
mantissa with optional exponent part. -/
def parseBody (neg : Bool) (l : List Char) : Option Dec :=
  if l = "inf".data ∨ l = "infinity".data then some (Dec.inf neg)
  else
    match l with
    | 's' :: 'n' :: 'a' :: 'n' :: payload =>
        if payload.all Char.isDigit then some Dec.snan else none
    | 'n' :: 'a' :: 'n' :: payload =>
        if payload.all Char.isDigit then some Dec.qnan else none
    | _ =>
        match l.span (fun c => c != 'e') with
        | (mant, []) => (parseMantissa mant).map fun m => mkFin neg m 0
        | (mant, _ :: expo) =>
            match parseMantissa mant, parseExponent expo with
            | some m, some e => some (mkFin neg m e)
            | _, _ => none

/-- Python's `Decimal(string)` constructor: strips surrounding whitespace,
removes underscores, then matches the (case-insensitive) decimal
numeric-string grammar.  `none` models the constructor raising
`InvalidOperation`. -/
def pyDecimal (s : String) : Option Dec :=
  let l := ((stripList pyIsSpace s.data).filter (fun c => c != '_')).map asciiLower
  let (neg, body) := parseSign l
  parseBody neg body

/-- `clean_number` from `upload_sb_accounts.py`: zero for missing/NaN cells
and for the literal stripped token `"NaN"`; otherwise `Decimal(str(value))`,
degrading to zero when that conversion raises. -/
def clean_number : Cell → Dec
  | Cell.null => Dec.fin 0
  | Cell.nan => Dec.fin 0
  | Cell.str s =>
      if pyStrip s = "NaN" then Dec.fin 0
      else
        match pyDecimal s with
        | some d => d
        | none => Dec.fin 0

/-- `generate_account_number` from `upload_sb_accounts.py`: the cleaned
string, or `None` when cleaning yields a falsy value (`None` or `""`). -/
def generate_account_number (original : Cell) : Option String :=
  match clean_string original with
  | none => none
  | some t => if t = "" then none else some t

/-- `generate_user_id_number` from `upload_sb_accounts.py`: the digit
characters of the account number in order, with the `"000000"` sentinel for
a falsy input or a digit-free string. -/
def generate_user_id_number (account_number : Option String) : String :=
  match account_number with
  | none => "000000"
  | some s =>
      if s = "" then "000000"
      else
        let numbers : String := ⟨s.data.filter Char.isDigit⟩
        if numbers = "" then "000000" else numbers

/-!
## The persistent store and the reconciliation procedure

Database rows as the script constructs and queries them through the ORM.
Timestamps are abstract naturals (`datetime(1990,1,1)`, `datetime(2024,1,1)`
and `datetime.now()` are opaque instants; `now` is passed in per row since
`datetime.now()` is evaluated inside the loop).  Record ids are allocated
from per-table counters, modelling the database's id generation.
-/

/-- Encoded `datetime(1990, 1, 1)`, the defaulted date of birth. -/
def defaultDateOfBirth : ℕ := 19900101

/-- Encoded `DEFAULT_OPENING_DATE = datetime(2024, 1, 1)`. -/
def defaultOpeningDate : ℕ := 20240101

/-- `DEFAULT_INTEREST_RATE = Decimal('4.0')`. -/
def defaultInterestRate : Dec := Dec.fin 4

/-- A `User` row with the fields `user_data` populates. -/
structure User where
  id : ℕ
  fullName : String
  dateOfBirth : ℕ
  gender : Option String
  contactNumber : String
  email : Option String
  address : String
  idType : String
  idNumber : String
  userType : String
  isActive : Bool
deriving DecidableEq

/-- A `UserAccount` row with the fields `account_data` populates. -/
structure UserAccount where
  id : ℕ
  accountNumber : String
  userId : ℕ
  balance : Dec
  interestRate : Dec
  openingDate : ℕ
  lastTransactionDate : ℕ
  status : String
  accountType : String
deriving DecidableEq

/-- The persisted store: both tables plus fresh-id counters. -/
structure Store where
  users : List User
  accounts : List UserAccount
  nextUserId : ℕ
  nextAccountId : ℕ
deriving DecidableEq

def emptyStore : Store := ⟨[], [], 0, 0⟩

/-- `prisma.user.find_first` with the `OR` filter on `idNumber` and
`contactNumber`: first match in table order. -/
def findUser (s : Store) (idN contact : String) : Option User :=
  s.users.find? (fun u => u.idNumber == idN || u.contactNumber == contact)

/-- `prisma.useraccount.find_first` filtering on `accountNumber`. -/
def findByNumber (s : Store) (n : String) : Option UserAccount :=
  s.accounts.find? (fun a => a.accountNumber == n)

/-- The user record `prisma.user.create` persists from `user_data`. -/
def mkUser (id : ℕ) (fullName idN contact : String) : User :=
  { id := id, fullName := fullName, dateOfBirth := defaultDateOfBirth,
    gender := none, contactNumber := contact, email := none,
    address := "Kathmandu, Nepal", idType := "CITIZENSHIP", idNumber := idN,
    userType := "SB", isActive := true }

/-- The account record `prisma.useraccount.create` persists from
`account_data`. -/
def mkAccount (id now : ℕ) (num : String) (uid : ℕ) (bal : Dec) : UserAccount :=
  { id := id, accountNumber := num, userId := uid, balance := bal,
    interestRate := defaultInterestRate, openingDate := defaultOpeningDate,
    lastTransactionDate := now, status := "ACTIVE", accountType := "SB" }

/-- `prisma.user.create`: append the new row, consuming a fresh id. -/
def addUser (s : Store) (fullName idN contact : String) : Store :=
  { s with users := s.users ++ [mkUser s.nextUserId fullName idN contact],
           nextUserId := s.nextUserId + 1 }

/-- `prisma.useraccount.create`: append the new row, consuming a fresh id. -/
def addAccount (s : Store) (now : ℕ) (num : String) (uid : ℕ) (bal : Dec) : Store :=
  { s with accounts := s.accounts ++ [mkAccount s.nextAccountId now num uid bal],
           nextAccountId := s.nextAccountId + 1 }

/-- `prisma.useraccount.update(where id, data balance)`: overwrite only the
balance of the row with the given id. -/
def setBal (s : Store) (i : ℕ) (b : Dec) : Store :=
  { s with accounts :=
      s.accounts.map (fun a => if a.id == i then { a with balance := b } else a) }

/-- One input row: the four positional cells the script reads
(`Unnamed: 0/1/2/4` = full name, account number, Jestha balance, Ashad
balance). -/
structure Row where
  c0 : Cell
  c1 : Cell
  c2 : Cell
  c4 : Cell
deriving DecidableEq

/-- The two skip gates (lines 89–96): missing essential data
(`not full_name or not account_number`) and the stray-header defence.
Returns the cleaned name and account number when the row is to be
processed. -/
def rowGate (r : Row) : Option (String × String) :=
  match clean_string r.c0, clean_string r.c1 with
  | some fn, some an =>
      if fn = "" || an = "" then none
      else if fn = "Account Number" || an = "Account Number" then none
      else some (fn, an)
  | _, _ => none

/-- Python `d > 0` on a `Decimal`: `InvalidOperation` is raised when the
operand is a NaN (the default context traps it). -/
def pyGtZero : Dec → Except String Bool
  | Dec.fin q => Except.ok (decide (0 < q))
  | Dec.inf neg => Except.ok (!neg)
  | Dec.qnan => Except.error "InvalidOperation"
  | Dec.snan => Except.error "InvalidOperation"

/-- The balance rule of `account_data` (line 138):
`ashad_balance if ashad_balance > 0 else jestha_balance`. -/
def chooseBalance (jestha ashad : Dec) : Except String Dec :=
  (pyGtZero ashad).map (fun gt => if gt then ashad else jestha)

/-- Python `!=` on `Decimal`s (line 160): a signalling NaN raises
`InvalidOperation`; a quiet NaN compares unequal to everything; otherwise
exact numeric comparison. -/
def pyNe : Dec → Dec → Except String Bool
  | Dec.snan, _ => Except.error "InvalidOperation"
  | _, Dec.snan => Except.error "InvalidOperation"
  | Dec.qnan, _ => Except.ok true
  | _, Dec.qnan => Except.ok true
  | Dec.fin q, Dec.fin q' => Except.ok (decide (q ≠ q'))
  | Dec.inf n, Dec.inf n' => Except.ok (decide (n ≠ n'))
  | Dec.fin _, Dec.inf _ => Except.ok true
  | Dec.inf _, Dec.fin _ => Except.ok true

/-- The awaited store operations at which a row-level exception can
originate (the per-row `try` also catches the organic `InvalidOperation`s
of the two `Decimal` comparisons). -/
inductive FaultSite
  | userFind
  | userCreate
  | acctFind
  | acctCreate
  | acctUpdate
deriving DecidableEq

/-- The message of a fault injected at `site`, if any. -/
def faultAt (fault : Option (FaultSite × String)) (site : FaultSite) : Option String :=
  match fault with
  | some (s, m) => if s = site then some m else none
  | none => none

/-- What processing one row produced (beyond the store effect). -/
inductive RowRes
  | skipped
  | created
  | existed (updated : Bool)
  | failed (msg : String)
deriving DecidableEq

/-- Lines 116–132: look up the user by id number OR contact number; reuse
when found, otherwise create.  Returns the store and the id of the resolved
user, or the caught exception. -/
def userPhase (fault : Option (FaultSite × String)) (s : Store)
    (fullName idN contact : String) : Except String (Store × ℕ) :=
  match faultAt fault FaultSite.userFind with
  | some m => Except.error m
  | none =>
      match findUser s idN contact with
      | some u => Except.ok (s, u.id)
      | none =>
          match faultAt fault FaultSite.userCreate with
          | some m => Except.error m
          | none => Except.ok (addUser s fullName idN contact, s.nextUserId)

/-- Lines 147–165: look up the account by number; create when absent
(counting a success), otherwise update the balance only when it differs. -/
def acctPhase (fault : Option (FaultSite × String)) (s : Store) (now : ℕ)
    (uid : ℕ) (num : String) (bal : Dec) : Store × RowRes :=
  match faultAt fault FaultSite.acctFind with
  | some m => (s, RowRes.failed m)
  | none =>
      match findByNumber s num with
      | none =>
          match faultAt fault FaultSite.acctCreate with
          | some m => (s, RowRes.failed m)
          | none => (addAccount s now num uid bal, RowRes.created)
      | some a =>
          match pyNe bal a.balance with
          | Except.error m => (s, RowRes.failed m)
          | Except.ok true =>
              match faultAt fault FaultSite.acctUpdate with
              | some m => (s, RowRes.failed m)
              | none => (setBal s a.id bal, RowRes.existed true)
          | Except.ok false => (s, RowRes.existed false)

/-- The body of the per-row loop (lines 80–177) for a single row: gates,
user phase, candidate balance, account phase.  The `Option` match on
`generate_account_number` is unreachable for gate-passing rows (the gate
guarantees a nonempty trimmed account number), mirroring the source's call
at line 136. -/
def runRow (now : ℕ) (fault : Option (FaultSite × String)) (s : Store)
    (r : Row) : Store × RowRes :=
  match rowGate r with
  | none => (s, RowRes.skipped)
  | some (fn, an) =>
      let idN := generate_user_id_number (some an)
      let contact := "+977" ++ idN
      match userPhase fault s fn idN contact with
      | Except.error m => (s, RowRes.failed m)
      | Except.ok (s₁, uid) =>
          match chooseBalance (clean_number r.c2) (clean_number r.c4) with
          | Except.error m => (s₁, RowRes.failed m)
          | Except.ok bal =>
              match generate_account_number (Cell.str an) with
              | none => (s₁, RowRes.failed "invalid account number")
              | some num => acctPhase fault s₁ now uid num bal

/-- Per-row diagnostic record appended to `errors` (lines 169–176). -/
structure ErrRec where
  row : ℕ
  error : String
  fullName : Option String
  accountNumber : Option String
deriving DecidableEq

/-- The loop's accumulated script state: the store plus `success_count`,
`error_count`, `errors`, and the ordered trace of row results. -/
structure RunState where
  store : Store
  successCount : ℕ
  errorCount : ℕ
  errors : List ErrRec
  results : List (ℕ × RowRes)
deriving DecidableEq

/-- Process row number `idx` (0-based) and fold its result into the
counters: creation increments `success_count`; a caught exception is
recorded with the 1-based row number, its message and the re-cleaned name
and account number, and increments `error_count`; skips and
existing-account rows touch no counter. -/
def stepRow (now : ℕ → ℕ) (faults : ℕ → Option (FaultSite × String))
    (st : RunState) (idx : ℕ) (r : Row) : RunState :=
  match runRow (now idx) (faults idx) st.store r with
  | (s', RowRes.skipped) =>
      { st with store := s', results := st.results ++ [(idx + 1, RowRes.skipped)] }
  | (s', RowRes.created) =>
      { st with store := s', successCount := st.successCount + 1,
                results := st.results ++ [(idx + 1, RowRes.created)] }
  | (s', RowRes.existed u) =>
      { st with store := s', results := st.results ++ [(idx + 1, RowRes.existed u)] }
  | (s', RowRes.failed m) =>
      { st with store := s', errorCount := st.errorCount + 1,
                errors := st.errors ++
                  [⟨idx + 1, m, clean_string r.c0, clean_string r.c1⟩],
                results := st.results ++ [(idx + 1, RowRes.failed m)] }

/-- The `for index, row in df.iterrows()` loop from row index `idx` on. -/
def runFrom (now : ℕ → ℕ) (faults : ℕ → Option (FaultSite × String)) :
    RunState → ℕ → List Row → RunState
  | st, _, [] => st
  | st, idx, r :: rest => runFrom now faults (stepRow now faults st idx r) (idx + 1) rest

/-- One full pass of `upload_sb_accounts` over `rows` against store `s`. -/
def runRows (now : ℕ → ℕ) (faults : ℕ → Option (FaultSite × String))
    (s : Store) (rows : List Row) : RunState :=
  runFrom now faults ⟨s, 0, 0, [], []⟩ 0 rows

/-- The store component of the loop alone. -/
def storeRun (now : ℕ → ℕ) (faults : ℕ → Option (FaultSite × String)) :
    Store → ℕ → List Row → Store
  | s, _, [] => s
  | s, idx, r :: rest =>
      storeRun now faults (runRow (now idx) (faults idx) s r).1 (idx + 1) rest

/-- The fault-free run (no store operation raises). -/
def noFault : ℕ → Option (FaultSite × String) := fun _ => none

/-- Store well-formedness: account ids are distinct and below the fresh-id
counter, so id-targeted updates touch exactly one row and created rows get
genuinely fresh ids. -/
def WF (s : Store) : Prop :=
  (s.accounts.map (fun a => a.id)).Nodup ∧
    ∀ a ∈ s.accounts, a.id < s.nextAccountId

/-- The net effect of the found-account branch on the stored balance:
`pyNe b c` raising (a signalling NaN on either side) leaves `c`; otherwise
the computed `b` is stored (writing it when it differs, keeping the equal
value otherwise). -/
def balStep (c b : Dec) : Dec :=
  if b = Dec.snan ∨ c = Dec.snan then c else b

/-- The cleaned account number and candidate balance of a row that passes
both gates and whose balance comparison does not raise — the rows that
reach the account phase.  Depends only on the row. -/
def rowTouch (r : Row) : Option (String × Dec) :=
  match rowGate r with
  | none => none
  | some (_, an) =>
      match chooseBalance (clean_number r.c2) (clean_number r.c4) with
      | Except.error _ => none
      | Except.ok b => some (an, b)

/-- The candidate balances that rows with account number `N` feed through
the account phase, in row order. -/
def trace (N : String) (rows : List Row) : List Dec :=
  rows.filterMap (fun r =>
    match rowTouch r with
    | some (a, b) => if a = N then some b else none
    | none => none)

/-- The synthesized user natural key of a gate-passing row: id number and
contact number. -/
def rowKey (an : String) : String × String :=
  (generate_user_id_number (some an), "+977" ++ generate_user_id_number (some an))

/-- Every gate-passing row of `rows` already has a matching user in `s`. -/
def userSat (rows : List Row) (s : Store) : Prop :=
  ∀ r ∈ rows, ∀ fn an, rowGate r = some (fn, an) →
    (findUser s (rowKey an).1 (rowKey an).2).isSome = true

/-- Every account-phase-reaching row of `rows` already has an account with
its number in `s`. -/
def acctSat (rows : List Row) (s : Store) : Prop :=
  ∀ r ∈ rows, ∀ N b, rowTouch r = some (N, b) →
    (findByNumber s N).isSome = true

/-- Two account rows agreeing on every field except possibly the balance. -/
def sameExceptBalance (x y : UserAccount) : Prop :=
  x.id = y.id ∧ x.accountNumber = y.accountNumber ∧ x.userId = y.userId ∧
    x.interestRate = y.interestRate ∧ x.openingDate = y.openingDate ∧
    x.lastTransactionDate = y.lastTransactionDate ∧ x.status = y.status ∧
    x.accountType = y.accountType

/-- A non-negative finite decimal. -/
def DecNonneg (d : Dec) : Prop :=
  ∃ q : ℚ, d = Dec.fin q ∧ 0 ≤ q

/-!
## Lemmas about stripping and the cleaning functions
-/

theorem head?_dropWhile {p : Char → Bool} {l : List Char} {c : Char}
    (h : (l.dropWhile p).head? = some c) : p c = false := by
  induction l with
  | nil => simp [List.dropWhile] at h
  | cons a t ih =>
      rw [List.dropWhile_cons] at h
      by_cases hp : p a = true
      · exact ih (by simpa [hp] using h)
      · simp only [hp, if_false] at h
        simp only [List.head?] at h
        cases h
        simpa using hp

theorem dropWhile_of_head?_false {p : Char → Bool} {l : List Char}
    (h : ∀ c, l.head? = some c → p c = false) : l.dropWhile p = l := by
  cases l with
  | nil => rfl
  | cons a t =>
      rw [List.dropWhile_cons]
      simp [h a rfl]

theorem dropWhile_idem (p : Char → Bool) (l : List Char) :
    (l.dropWhile p).dropWhile p = l.dropWhile p :=
  dropWhile_of_head?_false (fun _ hc => head?_dropWhile hc)

theorem getLast?_dropWhile {p : Char → Bool} {l : List Char}
    (h : l.dropWhile p ≠ []) : (l.dropWhile p).getLast? = l.getLast? := by
  induction l with
  | nil => simp [List.dropWhile] at h
  | cons a t ih =>
      rw [List.dropWhile_cons] at h ⊢
      by_cases hp : p a = true
      · simp only [hp, if_true] at h ⊢
        rw [ih h]
        cases t with
        | nil => simp [List.dropWhile] at h
        | cons b u => exact List.getLast?_cons_cons.symm
      · simp [hp]

theorem stripList_idem (p : Char → Bool) (l : List Char) :
    stripList p (stripList p l) = stripList p l := by
  show stripList p (((l.dropWhile p).reverse.dropWhile p).reverse) = _
  have hdx : ((l.dropWhile p).reverse.dropWhile p).dropWhile p
      = (l.dropWhile p).reverse.dropWhile p := dropWhile_idem p _
  have hrev : ((l.dropWhile p).reverse.dropWhile p).reverse.dropWhile p
      = ((l.dropWhile p).reverse.dropWhile p).reverse := by
    apply dropWhile_of_head?_false
    intro c hc
    rw [List.head?_reverse] at hc
    have hxe : (l.dropWhile p).reverse.dropWhile p ≠ [] := by
      intro he; rw [he] at hc; simp at hc
    have hc' : (l.dropWhile p).head? = some c := by
      calc (l.dropWhile p).head? = (l.dropWhile p).reverse.getLast? :=
            (List.getLast?_reverse _).symm
        _ = ((l.dropWhile p).reverse.dropWhile p).getLast? :=
            (getLast?_dropWhile hxe).symm
        _ = some c := hc
    exact head?_dropWhile hc'
  unfold stripList
  rw [hrev, List.reverse_reverse, hdx]

theorem pyStrip_idem (s : String) : pyStrip (pyStrip s) = pyStrip s :=
  congrArg String.mk (stripList_idem pyIsSpace s.data)

theorem dropWhile_eq_nil_of_all {p : Char → Bool} {l : List Char}
    (h : ∀ c ∈ l, p c = true) : l.dropWhile p = [] := by
  induction l with
  | nil => rfl
  | cons a t ih =>
      rw [List.dropWhile_cons]
      rw [h a (by simp)]
      simp only [if_true]
      exact ih (fun c hc => h c (by simp [hc]))

theorem stripList_eq_nil_of_all {p : Char → Bool} {l : List Char}
    (h : ∀ c ∈ l, p c = true) : stripList p l = [] := by
  unfold stripList
  rw [dropWhile_eq_nil_of_all h]
  simp [List.dropWhile]

/-- A whitespace-only string strips to the empty string. -/
theorem pyStrip_of_all_space {s : String} (h : s.data.all pyIsSpace = true) :
    pyStrip s = "" := by
  unfold pyStrip
  have : stripList pyIsSpace s.data = [] :=
    stripList_eq_nil_of_all (by simpa [List.all_eq_true] using h)
  rw [this]

/-- Reduction of `clean_string` on a string cell. -/
theorem clean_string_str (s : String) :
    clean_string (Cell.str s) =
      if pyStrip s = "NaN" then none else some (pyStrip s) := rfl

/-- Reduction of `clean_number` on a string cell. -/
theorem clean_number_str (s : String) :
    clean_number (Cell.str s) =
      if pyStrip s = "NaN" then Dec.fin 0
      else
        match pyDecimal s with
        | some d => d
        | none => Dec.fin 0 := rfl

/-- Every string `clean_string` returns is already stripped and is not the
`"NaN"` token. -/
theorem clean_string_output {c : Cell} {t : String}
    (h : clean_string c = some t) : pyStrip t = t ∧ t ≠ "NaN" := by
  cases c with
  | null => simp [clean_string] at h
  | nan => simp [clean_string] at h
  | str s =>
      rw [clean_string_str] at h
      by_cases hn : pyStrip s = "NaN"
      · simp [hn] at h
      · simp only [hn, if_false, Option.some.injEq] at h
        subst h
        exact ⟨pyStrip_idem s, hn⟩

/-!
## Gate and row-processing lemmas
-/

theorem rowGate_fields {r : Row} {fn an : String} (h : rowGate r = some (fn, an)) :
    clean_string r.c0 = some fn ∧ clean_string r.c1 = some an ∧
      fn ≠ "" ∧ an ≠ "" ∧ fn ≠ "Account Number" ∧ an ≠ "Account Number" := by
  unfold rowGate at h
  cases h0 : clean_string r.c0 with
  | none => rw [h0] at h; exact absurd h (by simp)
  | some fn' =>
      cases h1 : clean_string r.c1 with
      | none => rw [h0, h1] at h; exact absurd h (by simp)
      | some an' =>
          rw [h0, h1] at h
          dsimp only at h
          split_ifs at h with he hh
          simp only [Option.some.injEq, Prod.mk.injEq] at h
          obtain ⟨hfn, han⟩ := h
          subst hfn; subst han
          simp only [Bool.or_eq_true, decide_eq_true_eq, not_or] at he hh
          exact ⟨rfl, rfl, he.1, he.2, hh.1, hh.2⟩

theorem rowGate_acctNum {r : Row} {fn an : String} (h : rowGate r = some (fn, an)) :
    generate_account_number (Cell.str an) = some an := by
  obtain ⟨-, h1, -, han, -, -⟩ := rowGate_fields h
  obtain ⟨hstrip, hnan⟩ := clean_string_output h1
  unfold generate_account_number
  rw [clean_string_str, hstrip]
  simp [hnan, han]

theorem rowGate_none_of_blank_name {r : Row} (h : clean_string r.c0 = some "") :
    rowGate r = none := by
  unfold rowGate
  rw [h]
  cases clean_string r.c1 <;> simp

theorem rowGate_none_of_blank_acct {r : Row} (h : clean_string r.c1 = some "") :
    rowGate r = none := by
  unfold rowGate
  rw [h]
  cases clean_string r.c0 <;> simp

theorem rowGate_none_of_header {r : Row}
    (h : clean_string r.c0 = some "Account Number" ∨
         clean_string r.c1 = some "Account Number") :
    rowGate r = none := by
  unfold rowGate
  rcases h with h | h
  · rw [h]
    cases clean_string r.c1 with
    | none => rfl
    | some an => by_cases han : an = "" <;> simp [han]
  · rw [h]
    cases clean_string r.c0 with
    | none => rfl
    | some fn => by_cases hfn : fn = "" <;> simp [hfn]

theorem runRow_of_gate_none {now : ℕ} {fault : Option (FaultSite × String)}
    {s : Store} {r : Row} (h : rowGate r = none) :
    runRow now fault s r = (s, RowRes.skipped) := by
  unfold runRow
  rw [h]

theorem stepRow_of_gate_none {now : ℕ → ℕ} {faults : ℕ → Option (FaultSite × String)}
    {st : RunState} {idx : ℕ} {r : Row} (h : rowGate r = none) :
    stepRow now faults st idx r =
      { st with results := st.results ++ [(idx + 1, RowRes.skipped)] } := by
  unfold stepRow
  rw [runRow_of_gate_none h]

theorem runRow_of_gate_some {now : ℕ} {fault : Option (FaultSite × String)}
    {s : Store} {r : Row} {fn an : String} (h : rowGate r = some (fn, an)) :
    runRow now fault s r =
      match userPhase fault s fn (rowKey an).1 (rowKey an).2 with
      | Except.error m => (s, RowRes.failed m)
      | Except.ok (s₁, uid) =>
          match chooseBalance (clean_number r.c2) (clean_number r.c4) with
          | Except.error m => (s₁, RowRes.failed m)
          | Except.ok bal => acctPhase fault s₁ now uid an bal := by
  unfold runRow
  rw [h]
  dsimp only
  simp only [rowGate_acctNum h]
  rfl

theorem userPhase_store {fault : Option (FaultSite × String)} {s : Store}
    {fn idN contact : String} {s₁ : Store} {uid : ℕ}
    (h : userPhase fault s fn idN contact = Except.ok (s₁, uid)) :
    s₁ = s ∨ s₁ = addUser s fn idN contact := by
  unfold userPhase at h
  cases hf : faultAt fault FaultSite.userFind with
  | some m => rw [hf] at h; exact absurd h (by simp)
  | none =>
      rw [hf] at h
      cases hu : findUser s idN contact with
      | some u =>
          rw [hu] at h
          simp only [Except.ok.injEq, Prod.mk.injEq] at h
          exact Or.inl h.1.symm
      | none =>
          rw [hu] at h
          cases hc : faultAt fault FaultSite.userCreate with
          | some m => rw [hc] at h; exact absurd h (by simp)
          | none =>
              rw [hc] at h
              simp only [Except.ok.injEq, Prod.mk.injEq] at h
              exact Or.inr h.1.symm

theorem acctPhase_store (fault : Option (FaultSite × String)) (s : Store)
    (now uid : ℕ) (num : String) (b : Dec) :
    (acctPhase fault s now uid num b).1 = s ∨
    (acctPhase fault s now uid num b).1 = addAccount s now num uid b ∨
    ∃ i, (acctPhase fault s now uid num b).1 = setBal s i b := by
  unfold acctPhase
  cases hf : faultAt fault FaultSite.acctFind with
  | some m => exact Or.inl rfl
  | none =>
      cases hn : findByNumber s num with
      | none =>
          dsimp only
          cases hc : faultAt fault FaultSite.acctCreate with
          | some m => exact Or.inl rfl
          | none => exact Or.inr (Or.inl rfl)
      | some a =>
          dsimp only
          cases hp : pyNe b a.balance with
          | error m => exact Or.inl rfl
          | ok upd =>
              cases upd with
              | false => exact Or.inl rfl
              | true =>
                  cases hu : faultAt fault FaultSite.acctUpdate with
                  | some m => exact Or.inl rfl
                  | none => exact Or.inr (Or.inr ⟨a.id, rfl⟩)

theorem chooseBalance_cases {j a b : Dec}
    (h : chooseBalance j a = Except.ok b) : b = a ∨ b = j := by
  unfold chooseBalance at h
  cases ha : pyGtZero a with
  | error m => rw [ha] at h; exact absurd h (by simp [Except.map])
  | ok gt =>
      rw [ha] at h
      simp only [Except.map, Except.ok.injEq] at h
      cases gt with
      | true => exact Or.inl (by simpa using h.symm)
      | false => exact Or.inr (by simpa using h.symm)

/-- Every way one row can change the store: nothing, one appended user,
and/or one account appended or balance-overwritten with that row's
candidate balance. -/
theorem runRow_store_shape (now : ℕ) (fault : Option (FaultSite × String))
    (s : Store) (r : Row) :
    ∃ base : Store,
      (base = s ∨ ∃ fn an, rowGate r = some (fn, an) ∧
        base = addUser s fn (rowKey an).1 (rowKey an).2) ∧
      ((runRow now fault s r).1 = base ∨
        ∃ num b uid, chooseBalance (clean_number r.c2) (clean_number r.c4) = Except.ok b ∧
          ((runRow now fault s r).1 = addAccount base now num uid b ∨
            ∃ i, (runRow now fault s r).1 = setBal base i b)) := by
  cases hg : rowGate r with
  | none =>
      refine ⟨s, Or.inl rfl, Or.inl ?_⟩
      rw [runRow_of_gate_none hg]
  | some p =>
      obtain ⟨fn, an⟩ := p
      rw [runRow_of_gate_some hg]
      cases hu : userPhase fault s fn (rowKey an).1 (rowKey an).2 with
      | error m => exact ⟨s, Or.inl rfl, Or.inl rfl⟩
      | ok p1 =>
          obtain ⟨s₁, uid⟩ := p1
          have hb : s₁ = s ∨ s₁ = addUser s fn (rowKey an).1 (rowKey an).2 :=
            userPhase_store hu
          have hbase : s₁ = s ∨ ∃ fn' an', (some (fn, an) : Option (String × String)) = some (fn', an') ∧
              s₁ = addUser s fn' (rowKey an').1 (rowKey an').2 := by
            rcases hb with hb | hb
            · exact Or.inl hb
            · exact Or.inr ⟨fn, an, rfl, hb⟩
          cases hc : chooseBalance (clean_number r.c2) (clean_number r.c4) with
          | error m => exact ⟨s₁, hbase, Or.inl rfl⟩
          | ok bal =>
              rcases acctPhase_store fault s₁ now uid an bal with ha | ha | ⟨i, ha⟩
              · exact ⟨s₁, hbase, Or.inl ha⟩
              · exact ⟨s₁, hbase, Or.inr ⟨an, bal, uid, rfl, Or.inl ha⟩⟩
              · exact ⟨s₁, hbase, Or.inr ⟨an, bal, uid, rfl, Or.inr ⟨i, ha⟩⟩⟩

/-!
## Claims about the normalization functions
-/

/-- **C5, counterexample.**  The claim says a whitespace-only input yields
the absence marker and never an empty string; in the code, `clean_string`
of a whitespace-only cell returns the empty string, not `None`. -/
theorem clean_string_whitespace_counterexample :
    clean_string (Cell.str " ") ≠ none ∧ clean_string (Cell.str " ") = some "" := by
  constructor
  · decide
  · decide

/-- **C5 (amended).**  `clean_string` returns the absence marker `None`
exactly for missing/null cells and for strings that strip to the literal
`"NaN"` (case-sensitively); every other input yields its trimmed string
form — in particular blank or whitespace-only strings yield the empty
string, not the absence marker — and `clean_string` is idempotent on its
own output. -/
theorem clean_string_spec :
    clean_string Cell.null = none ∧
    clean_string Cell.nan = none ∧
    (∀ s, pyStrip s = "NaN" → clean_string (Cell.str s) = none) ∧
    (∀ s, pyStrip s ≠ "NaN" → clean_string (Cell.str s) = some (pyStrip s)) ∧
    (∀ s, s.data.all pyIsSpace = true → clean_string (Cell.str s) = some "") ∧
    (∀ c t, clean_string c = some t → clean_string (Cell.str t) = some t) := by
  refine ⟨rfl, rfl, ?_, ?_, ?_, ?_⟩
  · intro s h
    rw [clean_string_str]
    simp [h]
  · intro s h
    rw [clean_string_str]
    simp [h]
  · intro s h
    rw [clean_string_str, pyStrip_of_all_space h]
    decide
  · intro c t h
    obtain ⟨hs, hn⟩ := clean_string_output h
    rw [clean_string_str, hs]
    simp [hn]

theorem clean_string_spec_witness :
    clean_string (Cell.str "NaN ") = none ∧
    clean_string (Cell.str "  ") = some "" ∧
    clean_string (Cell.str (" Ram ")) = some (pyStrip " Ram ") :=
  ⟨clean_string_spec.2.2.1 "NaN " (by decide),
   clean_string_spec.2.2.2.2.1 "  " (by decide),
   clean_string_spec.2.2.2.1 " Ram " (by decide)⟩

/-- **C6.**  `clean_amount` never raises: it is a total function that
returns zero for missing/null cells, blank strings, the stripped `"NaN"`
token and any string whose `Decimal` conversion fails, and otherwise returns
exactly the value of the `Decimal` conversion — e.g. `"1234.50"` yields the
exact decimal 1234.50. -/
theorem clean_number_spec :
    clean_number Cell.null = Dec.fin 0 ∧
    clean_number Cell.nan = Dec.fin 0 ∧
    clean_number (Cell.str "") = Dec.fin 0 ∧
    (∀ s, pyStrip s = "NaN" → clean_number (Cell.str s) = Dec.fin 0) ∧
    (∀ s, pyDecimal s = none → clean_number (Cell.str s) = Dec.fin 0) ∧
    (∀ s d, pyDecimal s = some d → pyStrip s ≠ "NaN" → clean_number (Cell.str s) = d) ∧
    clean_number (Cell.str "1234.50") = Dec.fin (1234 + 1 / 2) := by
  refine ⟨rfl, rfl, by decide, ?_, ?_, ?_, ?_⟩
  · intro s h
    rw [clean_number_str]
    simp [h]
  · intro s h
    rw [clean_number_str, h]
    by_cases hn : pyStrip s = "NaN" <;> simp [hn]
  · intro s d h hn
    rw [clean_number_str, h]
    simp [hn]
  · have h : clean_number (Cell.str "1234.50") = Dec.fin (Rat.divInt 123450 100) := by
      decide
    rw [h]
    simp only [Dec.fin.injEq]
    rw [Rat.divInt_eq_div]
    norm_num

theorem clean_number_spec_witness :
    clean_number (Cell.str " NaN ") = Dec.fin 0 ∧
    clean_number (Cell.str "12x") = Dec.fin 0 ∧
    clean_number (Cell.str "-2.5") = Dec.fin (Rat.divInt (-25) 10) :=
  ⟨clean_number_spec.2.2.2.1 " NaN " (by decide),
   clean_number_spec.2.2.2.2.1 "12x" (by decide),
   clean_number_spec.2.2.2.2.2.1 "-2.5" (Dec.fin (Rat.divInt (-25) 10))
     (by decide) (by decide)⟩

/-- **C7.**  `extract_digits` returns the concatenation of the decimal
digit characters of the identifier in their original order, and the
six-character sentinel `"000000"` when the identifier is absent or has no
digits; in particular `"AC-001-22"` yields `"00122"`, `None` yields
`"000000"` and `"ABC"` yields `"000000"`. -/
theorem generate_user_id_number_spec :
    generate_user_id_number none = "000000" ∧
    (∀ s : String, generate_user_id_number (some s) =
      if s.data.filter Char.isDigit = [] then "000000" else ⟨s.data.filter Char.isDigit⟩) ∧
    generate_user_id_number (some "AC-001-22") = "00122" ∧
    generate_user_id_number (some "ABC") = "000000" := by
  refine ⟨rfl, ?_, by decide, by decide⟩
  intro s
  unfold generate_user_id_number
  by_cases hs : s = ""
  · subst hs
    simp
  · simp only [hs, if_false]
    by_cases hd : s.data.filter Char.isDigit = []
    · simp [hd, String.ext_iff]
    · simp [hd, String.ext_iff]

/-!
## Claims about row gating, balance choice and the account phase
-/

theorem faultAt_none (site : FaultSite) : faultAt none site = none := rfl

theorem addUser_accounts (s : Store) (fn idN contact : String) :
    (addUser s fn idN contact).accounts = s.accounts := rfl

theorem addAccount_accounts (s : Store) (now : ℕ) (num : String) (uid : ℕ) (b : Dec) :
    (addAccount s now num uid b).accounts =
      s.accounts ++ [mkAccount s.nextAccountId now num uid b] := rfl

theorem setBal_accounts (s : Store) (i : ℕ) (b : Dec) :
    (setBal s i b).accounts =
      s.accounts.map (fun a => if a.id == i then { a with balance := b } else a) := rfl

theorem forall₂_map_self {α : Type} (R : α → α → Prop) (f : α → α) (l : List α)
    (h : ∀ x ∈ l, R (f x) x) : List.Forall₂ R (l.map f) l := by
  induction l with
  | nil => exact List.Forall₂.nil
  | cons a t ih =>
      exact List.Forall₂.cons (h a (by simp)) (ih (fun x hx => h x (by simp [hx])))

/-- **C9.**  A row whose cleaned full name or cleaned account number equals
the literal header label `"Account Number"` is skipped: the store is
untouched (no person or account lookup, create or update happens) and
neither the success count nor the error count changes. -/
theorem header_row_skipped (r : Row)
    (h : clean_string r.c0 = some "Account Number" ∨
         clean_string r.c1 = some "Account Number") :
    (∀ now fault s, runRow now fault s r = (s, RowRes.skipped)) ∧
    (∀ now faults st idx,
      (stepRow now faults st idx r).store = st.store ∧
      (stepRow now faults st idx r).successCount = st.successCount ∧
      (stepRow now faults st idx r).errorCount = st.errorCount ∧
      (stepRow now faults st idx r).errors = st.errors) := by
  have hg := rowGate_none_of_header h
  refine ⟨fun now fault s => runRow_of_gate_none hg, fun now faults st idx => ?_⟩
  rw [stepRow_of_gate_none hg]
  exact ⟨rfl, rfl, rfl, rfl⟩

theorem header_row_skipped_witness :
    runRow 0 none emptyStore
        ⟨Cell.str "Account Number", Cell.str "123", Cell.null, Cell.null⟩ =
      (emptyStore, RowRes.skipped) :=
  (header_row_skipped ⟨Cell.str "Account Number", Cell.str "123", Cell.null, Cell.null⟩
    (Or.inl (by decide))).1 0 none emptyStore

/-- **C10.**  `clean_string` maps a whitespace-only cell to the empty
string (a falsy value), not `None`, and the validity gate nevertheless
skips such a row: no store operation happens and neither counter moves. -/
theorem whitespace_row_skipped (x : String) (hx : x.data.all pyIsSpace = true) :
    clean_string (Cell.str x) = some "" ∧
    (∀ r : Row, r.c0 = Cell.str x ∨ r.c1 = Cell.str x →
      (∀ now fault s, runRow now fault s r = (s, RowRes.skipped)) ∧
      (∀ now faults st idx,
        (stepRow now faults st idx r).store = st.store ∧
        (stepRow now faults st idx r).successCount = st.successCount ∧
        (stepRow now faults st idx r).errorCount = st.errorCount)) := by
  have hcs : clean_string (Cell.str x) = some "" := by
    rw [clean_string_str, pyStrip_of_all_space hx]
    decide
  refine ⟨hcs, fun r hr => ?_⟩
  have hg : rowGate r = none := by
    rcases hr with hr | hr
    · exact rowGate_none_of_blank_name (by rw [hr]; exact hcs)
    · exact rowGate_none_of_blank_acct (by rw [hr]; exact hcs)
  refine ⟨fun now fault s => runRow_of_gate_none hg, fun now faults st idx => ?_⟩
  rw [stepRow_of_gate_none hg]
  exact ⟨rfl, rfl, rfl⟩

theorem whitespace_row_skipped_witness :
    clean_string (Cell.str "   ") = some "" ∧
    runRow 0 none emptyStore
        ⟨Cell.str "Ram", Cell.str "   ", Cell.null, Cell.null⟩ =
      (emptyStore, RowRes.skipped) :=
  ⟨(whitespace_row_skipped "   " (by decide)).1,
   ((whitespace_row_skipped "   " (by decide)).2
      ⟨Cell.str "Ram", Cell.str "   ", Cell.null, Cell.null⟩ (Or.inr rfl)).1
     0 none emptyStore⟩

/-- **C2.**  The balance of the candidate account record is the later
(Ashad) balance when it is strictly positive and the earlier (Jestha)
balance otherwise: earlier 100 with later 0 gives 100, earlier 100 with
later 150 gives 150; and on the create path exactly this balance is what
is persisted. -/
theorem balance_precedence :
    (∀ qj qa : ℚ, chooseBalance (Dec.fin qj) (Dec.fin qa) =
        Except.ok (if 0 < qa then Dec.fin qa else Dec.fin qj)) ∧
    chooseBalance (Dec.fin 100) (Dec.fin 0) = Except.ok (Dec.fin 100) ∧
    chooseBalance (Dec.fin 100) (Dec.fin 150) = Except.ok (Dec.fin 150) ∧
    (∀ (s : Store) (now uid : ℕ) (num : String) (b : Dec),
      findByNumber s num = none →
      (acctPhase none s now uid num b).1.accounts.map (fun a => a.balance) =
        s.accounts.map (fun a => a.balance) ++ [b]) := by
  refine ⟨?_, by rfl, by rfl, ?_⟩
  · intro qj qa
    unfold chooseBalance pyGtZero
    by_cases h : 0 < qa <;> simp [Except.map, h]
  · intro s now uid num b hn
    unfold acctPhase
    simp only [faultAt_none]
    rw [hn]
    dsimp only
    rw [addAccount_accounts]
    simp [mkAccount]

theorem balance_precedence_witness :
    chooseBalance (Dec.fin 7) (Dec.fin 150) = Except.ok (Dec.fin 150) ∧
    (acctPhase none emptyStore 0 1 "123" (Dec.fin 150)).1.accounts.map
        (fun a => a.balance) = [Dec.fin 150] :=
  ⟨by
    have h := balance_precedence.1 7 150
    simpa using h,
   by
    have h := balance_precedence.2.2.2 emptyStore 0 1 "123" (Dec.fin 150) (by decide)
    simpa using h⟩

/-- **C4.**  When the account number is already present, the update
decision is exact decimal equality: a different computed balance rewrites
only the balance field of the existing record (every other field of every
record is unchanged), an equal balance performs no write at all, and
neither branch increments the success count. -/
theorem account_update_frame (now uid : ℕ) (s : Store) (num : String) (q qa : ℚ)
    (a : UserAccount) (hf : findByNumber s num = some a)
    (hb : a.balance = Dec.fin qa) :
    (q ≠ qa → acctPhase none s now uid num (Dec.fin q) =
        (setBal s a.id (Dec.fin q), RowRes.existed true)) ∧
    (q = qa → acctPhase none s now uid num (Dec.fin q) = (s, RowRes.existed false)) ∧
    List.Forall₂ sameExceptBalance (setBal s a.id (Dec.fin q)).accounts s.accounts ∧
    (∀ x ∈ s.accounts, x.id ≠ a.id → x ∈ (setBal s a.id (Dec.fin q)).accounts) ∧
    (setBal s a.id (Dec.fin q)).users = s.users ∧
    (∀ (nowf : ℕ → ℕ) faults (st : RunState) (idx : ℕ) (r : Row) (u : Bool) s',
      runRow (nowf idx) (faults idx) st.store r = (s', RowRes.existed u) →
      (stepRow nowf faults st idx r).successCount = st.successCount) := by
  have hred : acctPhase none s now uid num (Dec.fin q) =
      match pyNe (Dec.fin q) a.balance with
      | Except.error m => (s, RowRes.failed m)
      | Except.ok true => (setBal s a.id (Dec.fin q), RowRes.existed true)
      | Except.ok false => (s, RowRes.existed false) := by
    unfold acctPhase
    simp only [faultAt_none]
    rw [hf]
  refine ⟨?_, ?_, ?_, ?_, rfl, ?_⟩
  · intro hq
    rw [hred, hb]
    have : pyNe (Dec.fin q) (Dec.fin qa) = Except.ok true := by
      unfold pyNe
      simp [hq]
    rw [this]
  · intro hq
    rw [hred, hb]
    have : pyNe (Dec.fin q) (Dec.fin qa) = Except.ok false := by
      unfold pyNe
      simp [hq]
    rw [this]
  · rw [setBal_accounts]
    refine forall₂_map_self _ _ _ (fun x _ => ?_)
    by_cases hx : x.id == a.id <;>
      simp [hx, sameExceptBalance]
  · intro x hx hne
    rw [setBal_accounts]
    refine List.mem_map.mpr ⟨x, hx, ?_⟩
    simp [hne]
  · intro nowf faults st idx r u s' h
    unfold stepRow
    rw [h]

theorem account_update_frame_witness :
    acctPhase none
        ⟨[], [⟨5, "123", 1, Dec.fin 100, defaultInterestRate, defaultOpeningDate, 0,
          "ACTIVE", "SB"⟩], 2, 6⟩ 0 1 "123" (Dec.fin 150) =
      (setBal ⟨[], [⟨5, "123", 1, Dec.fin 100, defaultInterestRate, defaultOpeningDate, 0,
          "ACTIVE", "SB"⟩], 2, 6⟩ 5 (Dec.fin 150), RowRes.existed true) :=
  (account_update_frame 0 1
      ⟨[], [⟨5, "123", 1, Dec.fin 100, defaultInterestRate, defaultOpeningDate, 0,
        "ACTIVE", "SB"⟩], 2, 6⟩ "123" 150 100
      ⟨5, "123", 1, Dec.fin 100, defaultInterestRate, defaultOpeningDate, 0,
        "ACTIVE", "SB"⟩ (by rfl) rfl).1 (by norm_num)

/-- **C8, counterexample.**  The claim that every balance the run writes is
non-negative fails on the code: a row with negative period balances is
persisted with a negative balance (the later balance −5 is not strictly
positive, so the earlier balance −3 is stored). -/
theorem negative_balance_counterexample :
    ((runRow 0 none emptyStore
        ⟨Cell.str "X", Cell.str "1", Cell.str "-3", Cell.str "-5"⟩).1.accounts.map
      (fun a => a.balance)) = [Dec.fin (Rat.divInt (-3) 1)] ∧
    Rat.divInt (-3) 1 < 0 := by
  constructor
  · rfl
  · decide

/-- **C8 (amended).**  When every row's cleaned period balances are
non-negative finite decimals and every account already stored has a
non-negative balance, every account after the run still has a non-negative
balance — the run only ever writes one of the two cleaned balances. -/
theorem balance_nonneg (now : ℕ → ℕ) (faults : ℕ → Option (FaultSite × String))
    (rows : List Row) (s : Store) (idx : ℕ)
    (hrows : ∀ r ∈ rows, DecNonneg (clean_number r.c2) ∧ DecNonneg (clean_number r.c4))
    (hs : ∀ a ∈ s.accounts, DecNonneg a.balance) :
    ∀ a ∈ (storeRun now faults s idx rows).accounts, DecNonneg a.balance := by
  induction rows generalizing s idx with
  | nil => simpa [storeRun] using hs
  | cons r rest ih =>
      have hstep : ∀ a ∈ (runRow (now idx) (faults idx) s r).1.accounts,
          DecNonneg a.balance := by
        obtain ⟨base, hbase, heff⟩ := runRow_store_shape (now idx) (faults idx) s r
        have hbacc : base.accounts = s.accounts := by
          rcases hbase with h | ⟨fn, an, _, h⟩ <;> rw [h]
          rfl
        have hbase_nn : ∀ a ∈ base.accounts, DecNonneg a.balance := by
          rw [hbacc]; exact hs
        rcases heff with h | ⟨num, b, uid, hcb, h | ⟨i, h⟩⟩
        · rw [h]; exact hbase_nn
        · have hbnn : DecNonneg b := by
            rcases chooseBalance_cases hcb with hc | hc
            · exact hc ▸ (hrows r (by simp)).2
            · exact hc ▸ (hrows r (by simp)).1
          rw [h]
          intro a ha
          rw [addAccount_accounts] at ha
          rcases List.mem_append.mp ha with ha | ha
          · exact hbase_nn a ha
          · simp only [List.mem_singleton] at ha
            subst ha
            exact hbnn
        · have hbnn : DecNonneg b := by
            rcases chooseBalance_cases hcb with hc | hc
            · exact hc ▸ (hrows r (by simp)).2
            · exact hc ▸ (hrows r (by simp)).1
          rw [h]
          intro a ha
          rw [setBal_accounts] at ha
          obtain ⟨x, hx, hmap⟩ := List.mem_map.mp ha
          by_cases hid : x.id == i
          · rw [if_pos hid] at hmap
            subst hmap
            exact hbnn
          · rw [if_neg hid] at hmap
            subst hmap
            exact hbase_nn x hx
      have : storeRun now faults s idx (r :: rest) =
          storeRun now faults (runRow (now idx) (faults idx) s r).1 (idx + 1) rest := rfl
      rw [this]
      exact ih _ _ (fun r' hr' => hrows r' (by simp [hr'])) hstep

theorem balance_nonneg_witness :
    DecNonneg ((⟨0, "123", 0, Dec.fin 150, defaultInterestRate, defaultOpeningDate, 0,
      "ACTIVE", "SB"⟩ : UserAccount)).balance :=
  balance_nonneg (fun _ => 0) noFault
    [⟨Cell.str "Ram", Cell.str "123", Cell.str "100", Cell.str "150"⟩] emptyStore 0
    (by
      intro r hr
      simp only [List.mem_singleton] at hr
      subst hr
      constructor
      · exact ⟨100, by decide, by norm_num⟩
      · exact ⟨150, by decide, by norm_num⟩)
    (by intro a ha; simp [emptyStore] at ha)
    ⟨0, "123", 0, Dec.fin 150, defaultInterestRate, defaultOpeningDate, 0, "ACTIVE", "SB"⟩
    (by decide)

/-!
## Per-row isolation (error handling)
-/

theorem stepRow_results (now : ℕ → ℕ) (faults : ℕ → Option (FaultSite × String))
    (st : RunState) (idx : ℕ) (r : Row) :
    ∃ o, (stepRow now faults st idx r).results = st.results ++ [(idx + 1, o)] := by
  unfold stepRow
  cases hrr : runRow (now idx) (faults idx) st.store r with
  | mk s' res => cases res <;> exact ⟨_, rfl⟩

theorem runFrom_results (now : ℕ → ℕ) (faults : ℕ → Option (FaultSite × String)) :
    ∀ (rows : List Row) (st : RunState) (idx : ℕ),
      (runFrom now faults st idx rows).results.map Prod.fst =
        st.results.map Prod.fst ++ List.range' (idx + 1) rows.length := by
  intro rows
  induction rows with
  | nil => intro st idx; simp [runFrom]
  | cons r rest ih =>
      intro st idx
      have hstep := stepRow_results now faults st idx r
      obtain ⟨o, ho⟩ := hstep
      have : runFrom now faults st idx (r :: rest) =
          runFrom now faults (stepRow now faults st idx r) (idx + 1) rest := rfl
      rw [this, ih (stepRow now faults st idx r) (idx + 1), ho]
      simp [List.range'_succ]

/-- **C3.**  Per-row isolation: a failure while processing one row — an
exception raised by any awaited lookup, create or update — is caught and
recorded with the row's 1-based position, its message, and the row's
re-cleaned name and account number, incrementing the error count; the
iteration never aborts, every row of the batch contributing exactly one
result tagged with its 1-based position in order, whatever faults occur. -/
theorem row_isolation :
    (∀ (now : ℕ → ℕ) (faults : ℕ → Option (FaultSite × String)) (rows : List Row) (s : Store),
      (runRows now faults s rows).results.map Prod.fst = List.range' 1 rows.length) ∧
    (∀ (now : ℕ → ℕ) (faults : ℕ → Option (FaultSite × String)) (st : RunState)
        (idx : ℕ) (r : Row) (m : String) (s' : Store),
      runRow (now idx) (faults idx) st.store r = (s', RowRes.failed m) →
      (stepRow now faults st idx r).errors =
        st.errors ++ [⟨idx + 1, m, clean_string r.c0, clean_string r.c1⟩] ∧
      (stepRow now faults st idx r).errorCount = st.errorCount + 1 ∧
      (stepRow now faults st idx r).store = s' ∧
      (stepRow now faults st idx r).successCount = st.successCount) ∧
    (∀ (now : ℕ) (m : String) (s : Store) (r : Row) (fn an : String),
      rowGate r = some (fn, an) →
      runRow now (some (FaultSite.userFind, m)) s r = (s, RowRes.failed m)) ∧
    (∀ (fault : Option (FaultSite × String)) (s : Store) (now uid : ℕ)
        (num : String) (b : Dec) (m : String),
      faultAt fault FaultSite.acctFind = none →
      faultAt fault FaultSite.acctCreate = some m →
      findByNumber s num = none →
      acctPhase fault s now uid num b = (s, RowRes.failed m)) ∧
    (∀ (fault : Option (FaultSite × String)) (s : Store) (now uid : ℕ)
        (num : String) (b : Dec) (m : String) (a : UserAccount),
      faultAt fault FaultSite.acctFind = none →
      faultAt fault FaultSite.acctUpdate = some m →
      findByNumber s num = some a →
      pyNe b a.balance = Except.ok true →
      acctPhase fault s now uid num b = (s, RowRes.failed m)) := by
  refine ⟨?_, ?_, ?_, ?_, ?_⟩
  · intro now faults rows s
    have h := runFrom_results now faults rows ⟨s, 0, 0, [], []⟩ 0
    simpa [runRows] using h
  · intro now faults st idx r m s' h
    unfold stepRow
    rw [h]
    exact ⟨rfl, rfl, rfl, rfl⟩
  · intro now m s r fn an hg
    rw [runRow_of_gate_some hg]
    have : userPhase (some (FaultSite.userFind, m)) s fn (rowKey an).1 (rowKey an).2 =
        Except.error m := rfl
    rw [this]
  · intro fault s now uid num b m hfind hcreate hn
    unfold acctPhase
    rw [hfind, hn]
    dsimp only
    rw [hcreate]
  · intro fault s now uid num b m a hfind hupd hn hne
    unfold acctPhase
    rw [hfind, hn]
    dsimp only
    rw [hne]
    dsimp only
    rw [hupd]

theorem row_isolation_witness :
    (stepRow (fun _ => 0) (fun _ => some (FaultSite.acctCreate, "boom"))
        ⟨emptyStore, 0, 0, [], []⟩ 4
        ⟨Cell.str "Ram", Cell.str "123", Cell.str "100", Cell.str "150"⟩).errors =
      [⟨5, "boom", some "Ram", some "123"⟩] ∧
    acctPhase (some (FaultSite.acctCreate, "boom")) emptyStore 0 1 "123" (Dec.fin 150) =
      (emptyStore, RowRes.failed "boom") := by
  constructor
  · have h := row_isolation.2.1 (fun _ => 0) (fun _ => some (FaultSite.acctCreate, "boom"))
      ⟨emptyStore, 0, 0, [], []⟩ 4
      ⟨Cell.str "Ram", Cell.str "123", Cell.str "100", Cell.str "150"⟩ "boom"
      (addUser emptyStore "Ram" "123" "+977123") (by rfl)
    exact h.1
  · exact row_isolation.2.2.2.1 (some (FaultSite.acctCreate, "boom")) emptyStore 0 1 "123"
      (Dec.fin 150) "boom" (by rfl) (by rfl) (by rfl)

/-!
## The balance-step algebra

`balStep c b` is the stored balance after the found-account branch runs
with current balance `c` and computed balance `b`; folding it over the
trace of one account number describes every balance the loop leaves behind.
-/

theorem balStep_snan_left (b : Dec) : balStep Dec.snan b = Dec.snan := by
  simp [balStep]

theorem balStep_snan_right (c : Dec) : balStep c Dec.snan = c := by
  simp [balStep]

theorem balStep_of_ne {c b : Dec} (hb : b ≠ Dec.snan) (hc : c ≠ Dec.snan) :
    balStep c b = b := by
  simp [balStep, hb, hc]

theorem foldl_balStep_snan (l : List Dec) :
    List.foldl balStep Dec.snan l = Dec.snan := by
  induction l with
  | nil => rfl
  | cons b t ih => simpa [balStep_snan_left] using ih

theorem foldl_balStep_char (l : List Dec) :
    ∀ y, y ≠ Dec.snan →
      List.foldl balStep y l =
        ((l.filter fun d => d ≠ Dec.snan).getLast?).getD y := by
  induction l with
  | nil => intro y _; rfl
  | cons b t ih =>
      intro y hy
      by_cases hb : b = Dec.snan
      · subst hb
        rw [List.foldl_cons, balStep_snan_right]
        rw [ih y hy]
        simp [List.filter_cons]
      · rw [List.foldl_cons, balStep_of_ne hb hy, ih b hb]
        have hfil : ((b :: t).filter fun d => d ≠ Dec.snan) =
            b :: (t.filter fun d => d ≠ Dec.snan) := by
          simp [List.filter_cons, hb]
        rw [hfil]
        cases hft : (t.filter fun d => d ≠ Dec.snan) with
        | nil => rfl
        | cons c u =>
            rw [List.getLast?_cons_cons]
            have hz : (c :: u).getLast? = some ((c :: u).getLast (by simp)) :=
              List.getLast?_eq_getLast_of_ne_nil (by simp)
            rw [hz]
            rfl

theorem filter_getLast_ne_snan {l : List Dec} {z : Dec}
    (h : ((l.filter fun d => d ≠ Dec.snan).getLast?) = some z) :
    z ≠ Dec.snan := by
  have hz : z ∈ (l.filter fun d => d ≠ Dec.snan).getLast? := by
    rw [h]; rfl
  obtain ⟨hne, hz⟩ := List.mem_getLast?_eq_getLast hz
  have hmem : z ∈ l.filter fun d => d ≠ Dec.snan := by
    rw [hz]; exact List.getLast_mem hne
  have := List.of_mem_filter hmem
  simpa using this

theorem foldl_balStep_self (y : Dec) (l : List Dec) :
    List.foldl balStep (List.foldl balStep y l) l = List.foldl balStep y l := by
  by_cases hy : y = Dec.snan
  · subst hy
    rw [foldl_balStep_snan, foldl_balStep_snan]
  · rw [foldl_balStep_char l y hy]
    cases hlast : ((l.filter fun d => d ≠ Dec.snan).getLast?) with
    | none =>
        simp only [Option.getD_none]
        rw [foldl_balStep_char l y hy, hlast]
        rfl
    | some z =>
        simp only [Option.getD_some]
        rw [foldl_balStep_char l z (filter_getLast_ne_snan hlast), hlast]
        rfl

theorem foldl_balStep_create (b : Dec) (post : List Dec) :
    List.foldl balStep (List.foldl balStep b post) (b :: post) =
      List.foldl balStep b post := by
  by_cases hb : b = Dec.snan
  · subst hb
    rw [foldl_balStep_snan, List.foldl_cons, balStep_snan_left, foldl_balStep_snan]
  · have hy : List.foldl balStep b post ≠ Dec.snan := by
      rw [foldl_balStep_char post b hb]
      cases hlast : ((post.filter fun d => d ≠ Dec.snan).getLast?) with
      | none => simpa using hb
      | some z => simpa using filter_getLast_ne_snan hlast
    rw [List.foldl_cons, balStep_of_ne hb hy]

/-!
## Store infrastructure lemmas
-/

theorem pyNe_error_balStep {b c : Dec} {m : String}
    (h : pyNe b c = Except.error m) : balStep c b = c := by
  have : b = Dec.snan ∨ c = Dec.snan := by
    cases b <;> cases c <;> simp_all [pyNe]
  simp [balStep, this]

theorem pyNe_false_eq {b c : Dec} (h : pyNe b c = Except.ok false) :
    b = c := by
  cases b <;> cases c <;> simp_all [pyNe]

theorem pyNe_true_balStep {b c : Dec} (h : pyNe b c = Except.ok true) :
    balStep c b = b := by
  have hb : b ≠ Dec.snan := by
    intro he; subst he; simp [pyNe] at h
  have hc : c ≠ Dec.snan := by
    intro he; subst he; cases b <;> simp_all [pyNe]
  exact balStep_of_ne hb hc

theorem pyNe_false_balStep {b c : Dec} (h : pyNe b c = Except.ok false) :
    balStep c b = c := by
  rw [pyNe_false_eq h]
  cases c <;> simp [balStep]

theorem trace_cons (N : String) (r : Row) (rest : List Row) :
    trace N (r :: rest) =
      match rowTouch r with
      | some (a, b) => if a = N then b :: trace N rest else trace N rest
      | none => trace N rest := by
  unfold trace
  rw [List.filterMap_cons]
  cases rowTouch r with
  | none => rfl
  | some p =>
      obtain ⟨a, b⟩ := p
      by_cases ha : a = N <;> simp [ha]

theorem rowTouch_of_gate_none {r : Row} (h : rowGate r = none) :
    rowTouch r = none := by
  unfold rowTouch
  rw [h]

theorem rowTouch_of_choose_error {r : Row} {fn an : String} {m : String}
    (hg : rowGate r = some (fn, an))
    (hc : chooseBalance (clean_number r.c2) (clean_number r.c4) = Except.error m) :
    rowTouch r = none := by
  unfold rowTouch
  rw [hg, hc]

theorem rowTouch_of_choose_ok {r : Row} {fn an : String} {b : Dec}
    (hg : rowGate r = some (fn, an))
    (hc : chooseBalance (clean_number r.c2) (clean_number r.c4) = Except.ok b) :
    rowTouch r = some (an, b) := by
  unfold rowTouch
  rw [hg, hc]

theorem userPhase_none_ok (s : Store) (fn idN contact : String) :
    ∃ s₁ uid, userPhase none s fn idN contact = Except.ok (s₁, uid) ∧
      s₁.accounts = s.accounts ∧ s₁.nextAccountId = s.nextAccountId ∧
      ((findUser s idN contact).isSome = true → s₁ = s) := by
  unfold userPhase
  simp only [faultAt_none]
  cases hu : findUser s idN contact with
  | some u => exact ⟨s, u.id, rfl, rfl, rfl, fun _ => rfl⟩
  | none =>
      refine ⟨addUser s fn idN contact, s.nextUserId, rfl, rfl, rfl, fun h => ?_⟩
      simp at h

theorem find?_map_pres {α : Type} (f : α → α) (p : α → Bool)
    (hf : ∀ a, p (f a) = p a) :
    ∀ l : List α, (l.map f).find? p = (l.find? p).map f := by
  intro l
  induction l with
  | nil => rfl
  | cons a t ih =>
      rw [List.map_cons, List.find?_cons, List.find?_cons, hf a]
      cases hp : p a with
      | true => rfl
      | false => exact ih

theorem findByNumber_setBal (s : Store) (i : ℕ) (b : Dec) (n : String) :
    findByNumber (setBal s i b) n =
      (findByNumber s n).map
        (fun a => if a.id == i then { a with balance := b } else a) := by
  unfold findByNumber setBal
  exact find?_map_pres _ _ (fun a => by by_cases h : a.id == i <;> simp [h]) _

theorem findByNumber_addUser (s : Store) (fn idN contact : String) (n : String) :
    findByNumber (addUser s fn idN contact) n = findByNumber s n := rfl

theorem findByNumber_addAccount (s : Store) (now : ℕ) (num : String) (uid : ℕ)
    (b : Dec) (n : String) :
    findByNumber (addAccount s now num uid b) n =
      (findByNumber s n).or
        (if num == n then some (mkAccount s.nextAccountId now num uid b) else none) := by
  unfold findByNumber addAccount
  rw [List.find?_append]
  congr 1
  cases hq : num == n with
  | true => simp [List.find?_cons, List.find?_nil, mkAccount, hq]
  | false => simp [List.find?_cons, List.find?_nil, mkAccount, hq]

theorem findUser_users_eq {s s' : Store} (h : s'.users = s.users)
    (idN contact : String) : findUser s' idN contact = findUser s idN contact := by
  unfold findUser
  rw [h]

theorem mem_of_findByNumber {s : Store} {n : String} {a : UserAccount}
    (h : findByNumber s n = some a) : a ∈ s.accounts ∧ a.accountNumber = n := by
  refine ⟨List.mem_of_find?_eq_some h, ?_⟩
  have := List.find?_some h
  simpa using this

theorem eq_of_mem_of_id {s : Store} (hwf : WF s) {x y : UserAccount}
    (hx : x ∈ s.accounts) (hy : y ∈ s.accounts) (hid : x.id = y.id) : x = y :=
  List.inj_on_of_nodup_map hwf.1 hx hy hid

theorem map_id_of {α : Type} (f : α → α) (l : List α) (h : ∀ x ∈ l, f x = x) :
    l.map f = l := by
  induction l with
  | nil => rfl
  | cons a t ih =>
      rw [List.map_cons, h a (by simp), ih (fun x hx => h x (by simp [hx]))]

theorem setBal_self {s : Store} {a : UserAccount} (hwf : WF s)
    (ha : a ∈ s.accounts) : setBal s a.id a.balance = s := by
  unfold setBal
  have hmap : s.accounts.map
      (fun x => if x.id == a.id then { x with balance := a.balance } else x) =
      s.accounts := by
    apply map_id_of
    intro x hx
    by_cases hid : x.id == a.id
    · have hxa : x = a := eq_of_mem_of_id hwf hx ha (by simpa using hid)
      subst hxa
      simp
    · simp [hid]
  rw [hmap]

theorem WF_addUser (s : Store) (fn idN contact : String) (h : WF s) :
    WF (addUser s fn idN contact) := h

theorem WF_addAccount (s : Store) (now : ℕ) (num : String) (uid : ℕ) (b : Dec)
    (h : WF s) : WF (addAccount s now num uid b) := by
  obtain ⟨hnd, hlt⟩ := h
  constructor
  · unfold addAccount
    simp only [List.map_append]
    rw [List.nodup_append]
    refine ⟨hnd, by simp [mkAccount], ?_⟩
    intro x hx
    simp only [List.map_cons, List.map_nil, List.mem_singleton, mkAccount] at *
    obtain ⟨a, ha, hax⟩ := List.mem_map.mp hx
    intro he
    rw [he] at hax
    have := hlt a ha
    omega
  · intro a ha
    unfold addAccount at ha ⊢
    simp only at ha ⊢
    rcases List.mem_append.mp ha with ha | ha
    · have := hlt a ha
      omega
    · simp only [List.mem_singleton] at ha
      subst ha
      simp [mkAccount]

theorem WF_setBal (s : Store) (i : ℕ) (b : Dec) (h : WF s) : WF (setBal s i b) := by
  obtain ⟨hnd, hlt⟩ := h
  constructor
  · unfold setBal
    simp only
    have : (s.accounts.map fun x =>
        if x.id == i then { x with balance := b } else x).map (fun a => a.id) =
        s.accounts.map (fun a => a.id) := by
      rw [List.map_map]
      apply List.map_congr_left
      intro a _
      by_cases hid : a.id == i
      · rw [Function.comp_apply, if_pos hid]
      · rw [Function.comp_apply, if_neg hid]
    rw [this]
    exact hnd
  · intro a ha
    unfold setBal at ha
    simp only at ha
    obtain ⟨x, hx, hxa⟩ := List.mem_map.mp ha
    have hxlt := hlt x hx
    by_cases hid : x.id == i
    · rw [if_pos hid] at hxa
      rw [← hxa]
      exact hxlt
    · rw [if_neg hid] at hxa
      rw [← hxa]
      exact hxlt

theorem WF_runRow (now : ℕ) (fault : Option (FaultSite × String)) (s : Store)
    (r : Row) (h : WF s) : WF (runRow now fault s r).1 := by
  obtain ⟨base, hbase, heff⟩ := runRow_store_shape now fault s r
  have hbwf : WF base := by
    rcases hbase with hb | ⟨fn, an, _, hb⟩
    · rwa [hb]
    · rw [hb]; exact WF_addUser s _ _ _ h
  rcases heff with he | ⟨num, b, uid, _, he | ⟨i, he⟩⟩
  · rwa [he]
  · rw [he]; exact WF_addAccount base now num uid b hbwf
  · rw [he]; exact WF_setBal base i b hbwf

theorem WF_storeRun (now : ℕ → ℕ) (faults : ℕ → Option (FaultSite × String)) :
    ∀ (rows : List Row) (s : Store) (idx : ℕ), WF s →
      WF (storeRun now faults s idx rows) := by
  intro rows
  induction rows with
  | nil => intro s idx h; exact h
  | cons r rest ih =>
      intro s idx h
      exact ih _ _ (WF_runRow (now idx) (faults idx) s r h)

/-!
## Presence monotonicity and saturation

A run never deletes: users and account numbers only accumulate, and a
fault-free run establishes the user and account of every row it processes.
-/

theorem addAccount_users (s : Store) (now : ℕ) (num : String) (uid : ℕ) (b : Dec) :
    (addAccount s now num uid b).users = s.users := rfl

theorem setBal_users (s : Store) (i : ℕ) (b : Dec) :
    (setBal s i b).users = s.users := rfl

theorem addUser_users (s : Store) (fn idN contact : String) :
    (addUser s fn idN contact).users =
      s.users ++ [mkUser s.nextUserId fn idN contact] := rfl

theorem runRow_users (now : ℕ) (fault : Option (FaultSite × String)) (s : Store)
    (r : Row) :
    (runRow now fault s r).1.users = s.users ∨
    ∃ u, (runRow now fault s r).1.users = s.users ++ [u] := by
  obtain ⟨base, hbase, heff⟩ := runRow_store_shape now fault s r
  have hb : base.users = s.users ∨ ∃ u, base.users = s.users ++ [u] := by
    rcases hbase with h | ⟨fn, an, _, h⟩
    · exact Or.inl (by rw [h])
    · exact Or.inr ⟨_, by rw [h]; rfl⟩
  rcases heff with he | ⟨num, b, uid, _, he | ⟨i, he⟩⟩ <;> rw [he] <;> exact hb

theorem runRow_accounts (now : ℕ) (fault : Option (FaultSite × String)) (s : Store)
    (r : Row) :
    (runRow now fault s r).1.accounts = s.accounts ∨
    (∃ x, (runRow now fault s r).1.accounts = s.accounts ++ [x]) ∨
    (∃ i b, (runRow now fault s r).1.accounts =
        s.accounts.map (fun a => if a.id == i then { a with balance := b } else a)) := by
  obtain ⟨base, hbase, heff⟩ := runRow_store_shape now fault s r
  have hb : base.accounts = s.accounts := by
    rcases hbase with h | ⟨fn, an, _, h⟩ <;> rw [h] <;> rfl
  rcases heff with he | ⟨num, b, uid, _, he | ⟨i, he⟩⟩
  · rw [he]; exact Or.inl hb
  · rw [he, addAccount_accounts, hb]; exact Or.inr (Or.inl ⟨_, rfl⟩)
  · rw [he, setBal_accounts, hb]; exact Or.inr (Or.inr ⟨i, b, rfl⟩)

theorem findUser_mono (now : ℕ) (fault : Option (FaultSite × String)) (s : Store)
    (r : Row) (idN contact : String)
    (h : (findUser s idN contact).isSome = true) :
    (findUser (runRow now fault s r).1 idN contact).isSome = true := by
  rcases runRow_users now fault s r with hu | ⟨u, hu⟩
  · rw [findUser_users_eq hu]; exact h
  · unfold findUser at h ⊢
    rw [hu, List.find?_append]
    obtain ⟨v, hv⟩ := Option.isSome_iff_exists.mp h
    rw [hv]
    rfl

theorem findByNumber_mono (now : ℕ) (fault : Option (FaultSite × String))
    (s : Store) (r : Row) (n : String)
    (h : (findByNumber s n).isSome = true) :
    (findByNumber (runRow now fault s r).1 n).isSome = true := by
  rcases runRow_accounts now fault s r with ha | ⟨x, ha⟩ | ⟨i, b, ha⟩ <;>
    unfold findByNumber at h ⊢ <;> rw [ha]
  · exact h
  · rw [List.find?_append]
    obtain ⟨v, hv⟩ := Option.isSome_iff_exists.mp h
    rw [hv]
    rfl
  · rw [find?_map_pres _ _ (fun a => by by_cases hh : a.id == i <;> simp [hh])]
    obtain ⟨v, hv⟩ := Option.isSome_iff_exists.mp h
    rw [hv]
    rfl

theorem findUser_mono_run (now : ℕ → ℕ) (faults : ℕ → Option (FaultSite × String)) :
    ∀ (rows : List Row) (s : Store) (idx : ℕ) (idN contact : String),
      (findUser s idN contact).isSome = true →
      (findUser (storeRun now faults s idx rows) idN contact).isSome = true := by
  intro rows
  induction rows with
  | nil => intro s idx idN contact h; exact h
  | cons r rest ih =>
      intro s idx idN contact h
      exact ih _ _ _ _ (findUser_mono (now idx) (faults idx) s r idN contact h)

theorem findByNumber_mono_run (now : ℕ → ℕ) (faults : ℕ → Option (FaultSite × String)) :
    ∀ (rows : List Row) (s : Store) (idx : ℕ) (n : String),
      (findByNumber s n).isSome = true →
      (findByNumber (storeRun now faults s idx rows) n).isSome = true := by
  intro rows
  induction rows with
  | nil => intro s idx n h; exact h
  | cons r rest ih =>
      intro s idx n h
      exact ih _ _ _ (findByNumber_mono (now idx) (faults idx) s r n h)

theorem userPhase_none_user_present (s : Store) (fn idN contact : String)
    (s₁ : Store) (uid : ℕ)
    (h : userPhase none s fn idN contact = Except.ok (s₁, uid)) :
    (findUser s₁ idN contact).isSome = true := by
  unfold userPhase at h
  simp only [faultAt_none] at h
  cases hu : findUser s idN contact with
  | some u =>
      rw [hu] at h
      simp only [Except.ok.injEq, Prod.mk.injEq] at h
      rw [← h.1, hu]
      rfl
  | none =>
      rw [hu] at h
      simp only [Except.ok.injEq, Prod.mk.injEq] at h
      rw [← h.1]
      unfold findUser at hu
      unfold findUser addUser
      simp only
      rw [List.find?_append, hu]
      simp [mkUser]

theorem acctPhase_users (fault : Option (FaultSite × String)) (s : Store)
    (now uid : ℕ) (num : String) (b : Dec) :
    (acctPhase fault s now uid num b).1.users = s.users := by
  rcases acctPhase_store fault s now uid num b with h | h | ⟨i, h⟩ <;> rw [h] <;> rfl

theorem acctPhase_none_present (s : Store) (now uid : ℕ) (num : String) (b : Dec) :
    (findByNumber (acctPhase none s now uid num b).1 num).isSome = true := by
  unfold acctPhase
  simp only [faultAt_none]
  cases hn : findByNumber s num with
  | none =>
      dsimp only
      rw [findByNumber_addAccount, hn]
      simp
  | some a =>
      dsimp only
      cases hp : pyNe b a.balance with
      | error m => rw [hn]; rfl
      | ok upd =>
          cases upd with
          | false => rw [hn]; rfl
          | true =>
              dsimp only
              rw [findByNumber_setBal, hn]
              rfl

theorem rowTouch_inv {r : Row} {N : String} {b : Dec}
    (h : rowTouch r = some (N, b)) :
    ∃ fn, rowGate r = some (fn, N) ∧
      chooseBalance (clean_number r.c2) (clean_number r.c4) = Except.ok b := by
  unfold rowTouch at h
  cases hg : rowGate r with
  | none => rw [hg] at h; exact absurd h (by simp)
  | some p =>
      obtain ⟨fn, an⟩ := p
      rw [hg] at h
      dsimp only at h
      cases hc : chooseBalance (clean_number r.c2) (clean_number r.c4) with
      | error m => rw [hc] at h; exact absurd h (by simp)
      | ok b' =>
          rw [hc] at h
          simp only [Option.some.injEq, Prod.mk.injEq] at h
          exact ⟨fn, by rw [h.1], by rw [h.2]⟩

theorem runRow_ensures_user (now : ℕ) (s : Store) (r : Row) {fn an : String}
    (hg : rowGate r = some (fn, an)) :
    (findUser (runRow now none s r).1 (rowKey an).1 (rowKey an).2).isSome = true := by
  rw [runRow_of_gate_some hg]
  obtain ⟨s₁, uid, hup, -, -, -⟩ :=
    userPhase_none_ok s fn (rowKey an).1 (rowKey an).2
  rw [hup]
  dsimp only
  have hs₁ := userPhase_none_user_present s fn (rowKey an).1 (rowKey an).2 s₁ uid hup
  cases hc : chooseBalance (clean_number r.c2) (clean_number r.c4) with
  | error m => exact hs₁
  | ok bal =>
      rw [findUser_users_eq (acctPhase_users none s₁ now uid an bal)]
      exact hs₁

theorem runRow_ensures_acct (now : ℕ) (s : Store) (r : Row) {N : String} {b : Dec}
    (ht : rowTouch r = some (N, b)) :
    (findByNumber (runRow now none s r).1 N).isSome = true := by
  obtain ⟨fn, hg, hc⟩ := rowTouch_inv ht
  rw [runRow_of_gate_some hg]
  obtain ⟨s₁, uid, hup, -, -, -⟩ :=
    userPhase_none_ok s fn (rowKey N).1 (rowKey N).2
  rw [hup]
  dsimp only
  rw [hc]
  exact acctPhase_none_present s₁ now uid N b

theorem storeRun_sat (now : ℕ → ℕ) :
    ∀ (rows : List Row) (s : Store) (idx : ℕ),
      userSat rows (storeRun now noFault s idx rows) ∧
      acctSat rows (storeRun now noFault s idx rows) := by
  intro rows
  induction rows with
  | nil =>
      intro s idx
      exact ⟨fun r hr => absurd hr (by simp), fun r hr => absurd hr (by simp)⟩
  | cons r rest ih =>
      intro s idx
      constructor
      · intro r' hr' fn an hg
        rcases List.mem_cons.mp hr' with he | hm
        · subst he
          exact findUser_mono_run now noFault rest _ (idx + 1) _ _
            (runRow_ensures_user (now idx) s r' hg)
        · exact (ih _ (idx + 1)).1 r' hm fn an hg
      · intro r' hr' N b ht
        rcases List.mem_cons.mp hr' with he | hm
        · subst he
          exact findByNumber_mono_run now noFault rest _ (idx + 1) _
            (runRow_ensures_acct (now idx) s r' ht)
        · exact (ih _ (idx + 1)).2 r' hm N b ht

/-!
## A saturated fault-free run only rewrites balances
-/

theorem runRow_none_saturated (now : ℕ) (s : Store) (r : Row) (hwf : WF s)
    (huser : ∀ fn an, rowGate r = some (fn, an) →
      (findUser s (rowKey an).1 (rowKey an).2).isSome = true)
    (hacct : ∀ N b, rowTouch r = some (N, b) →
      (findByNumber s N).isSome = true) :
    (rowTouch r = none ∧ (runRow now none s r).1 = s) ∨
    (∃ N b a, rowTouch r = some (N, b) ∧ findByNumber s N = some a ∧
      (runRow now none s r).1 = setBal s a.id (balStep a.balance b)) := by
  cases hg : rowGate r with
  | none =>
      refine Or.inl ⟨rowTouch_of_gate_none hg, ?_⟩
      rw [runRow_of_gate_none hg]
  | some p =>
      obtain ⟨fn, an⟩ := p
      rw [runRow_of_gate_some hg]
      obtain ⟨s₁, uid, hup, hacc1, hnext1, hfound⟩ :=
        userPhase_none_ok s fn (rowKey an).1 (rowKey an).2
      have hs₁ : s₁ = s := hfound (huser fn an hg)
      subst hs₁
      rw [hup]
      dsimp only
      cases hc : chooseBalance (clean_number r.c2) (clean_number r.c4) with
      | error m => exact Or.inl ⟨rowTouch_of_choose_error hg hc, rfl⟩
      | ok b =>
          have ht := rowTouch_of_choose_ok hg hc
          obtain ⟨a, hn⟩ := Option.isSome_iff_exists.mp (hacct an b ht)
          refine Or.inr ⟨an, b, a, ht, hn, ?_⟩
          unfold acctPhase
          simp only [faultAt_none]
          rw [hn]
          dsimp only
          cases hp : pyNe b a.balance with
          | error m =>
              rw [pyNe_error_balStep hp]
              exact (setBal_self hwf (mem_of_findByNumber hn).1).symm
          | ok upd =>
              cases upd with
              | true => rw [pyNe_true_balStep hp]
              | false =>
                  rw [pyNe_false_balStep hp]
                  exact (setBal_self hwf (mem_of_findByNumber hn).1).symm

theorem findByNumber_setBal_id (s : Store) (i : ℕ) (b : Dec) (n : String) :
    (findByNumber (setBal s i b) n).map (fun x => x.id) =
      (findByNumber s n).map (fun x => x.id) := by
  rw [findByNumber_setBal, Option.map_map]
  cases hn : findByNumber s n with
  | none => rfl
  | some a =>
      dsimp only [Option.map, Function.comp]
      by_cases hid : (a.id == i) = true
      · rw [if_pos hid]
      · rw [if_neg hid]

theorem store_update_accounts_eq (s₁ s₂ : Store) (A B : List UserAccount)
    (hu : s₁.users = s₂.users) (h1 : s₁.nextUserId = s₂.nextUserId)
    (h2 : s₁.nextAccountId = s₂.nextAccountId) (hAB : A = B) :
    ({ s₁ with accounts := A } : Store) = { s₂ with accounts := B } := by
  cases s₁
  cases s₂
  simp only at hu h1 h2
  subst hu
  subst h1
  subst h2
  subst hAB
  rfl

/-- Closed form of a fault-free run over a saturated store: no user or
account is created, and each account that is the first match for its own
number folds the trace of its number over its balance; everything else is
untouched. -/
theorem storeRun_saturated (now : ℕ → ℕ) :
    ∀ (rows : List Row) (s : Store) (idx : ℕ),
      WF s → userSat rows s → acctSat rows s →
      storeRun now noFault s idx rows =
        { s with accounts := s.accounts.map (fun a =>
            if (findByNumber s a.accountNumber).map (fun x => x.id) = some a.id
            then { a with balance := List.foldl balStep a.balance (trace a.accountNumber rows) }
            else a) } := by
  intro rows
  induction rows with
  | nil =>
      intro s idx hwf husat hasat
      show s = _
      have hm : s.accounts.map (fun a =>
          if (findByNumber s a.accountNumber).map (fun x => x.id) = some a.id
          then { a with balance := List.foldl balStep a.balance (trace a.accountNumber []) }
          else a) = s.accounts := by
        apply map_id_of
        intro x _
        by_cases hcond : (findByNumber s x.accountNumber).map (fun y => y.id) = some x.id
        · rw [if_pos hcond]
          rfl
        · rw [if_neg hcond]
      rw [hm]
  | cons r rest ih =>
      intro s idx hwf husat hasat
      have husat_t : userSat rest s := fun r' hr' => husat r' (by simp [hr'])
      have hasat_t : acctSat rest s := fun r' hr' => hasat r' (by simp [hr'])
      rcases runRow_none_saturated (now idx) s r hwf
          (fun fn an hg => husat r (by simp) fn an hg)
          (fun N b ht => hasat r (by simp) N b ht) with
        ⟨htn, heq⟩ | ⟨N, b, a, ht, hn, heq⟩
      · have hrw : storeRun now noFault s idx (r :: rest) =
            storeRun now noFault s (idx + 1) rest := by
          show storeRun now noFault (runRow (now idx) none s r).1 (idx + 1) rest = _
          rw [heq]
        rw [hrw, ih s (idx + 1) hwf husat_t hasat_t]
        congr 1
        apply List.map_congr_left
        intro x _
        rw [trace_cons, htn]
      · obtain ⟨ha_mem, ha_num⟩ := mem_of_findByNumber hn
        have hrw : storeRun now noFault s idx (r :: rest) =
            storeRun now noFault (setBal s a.id (balStep a.balance b)) (idx + 1) rest := by
          show storeRun now noFault (runRow (now idx) none s r).1 (idx + 1) rest = _
          rw [heq]
        have hwf' : WF (setBal s a.id (balStep a.balance b)) := WF_setBal s _ _ hwf
        have husat' : userSat rest (setBal s a.id (balStep a.balance b)) := by
          intro r' hr' fn an hg
          rw [findUser_users_eq (setBal_users s _ _)]
          exact husat_t r' hr' fn an hg
        have hasat' : acctSat rest (setBal s a.id (balStep a.balance b)) := by
          intro r' hr' N' b' ht'
          rw [findByNumber_setBal]
          obtain ⟨v, hv⟩ := Option.isSome_iff_exists.mp (hasat_t r' hr' N' b' ht')
          rw [hv]
          rfl
        rw [hrw, ih _ (idx + 1) hwf' husat' hasat']
        apply store_update_accounts_eq _ _ _ _ rfl rfl rfl
        rw [setBal_accounts, List.map_map]
        apply List.map_congr_left
        intro x hx
        simp only [Function.comp_apply]
        by_cases hxid : (x.id == a.id) = true
        · have hxa : x = a := eq_of_mem_of_id hwf hx ha_mem (by simpa using hxid)
          rw [← hxa] at hxid hn ha_num
          rw [← hxa]
          rw [show (if (x.id == x.id) = true
              then { x with balance := balStep x.balance b } else x) =
              { x with balance := balStep x.balance b } from if_pos hxid]
          rw [show ({ x with balance := balStep x.balance b } : UserAccount).accountNumber
              = x.accountNumber from rfl]
          rw [show ({ x with balance := balStep x.balance b } : UserAccount).id
              = x.id from rfl]
          rw [show ({ x with balance := balStep x.balance b } : UserAccount).balance
              = balStep x.balance b from rfl]
          have hcond1 : (findByNumber (setBal s x.id (balStep x.balance b))
              x.accountNumber).map (fun y => y.id) = some x.id := by
            rw [findByNumber_setBal_id, ha_num, hn]
            rfl
          have hcond2 : (findByNumber s x.accountNumber).map (fun y => y.id) =
              some x.id := by
            rw [ha_num, hn]
            rfl
          rw [if_pos hcond1, if_pos hcond2]
          have hbal : List.foldl balStep x.balance (trace N (r :: rest)) =
              List.foldl balStep (balStep x.balance b) (trace N rest) := by
            rw [trace_cons, ht]
            dsimp only
            rw [if_pos rfl, List.foldl_cons]
          rw [ha_num, hbal]
        · rw [show (if (x.id == a.id) = true
              then { x with balance := balStep a.balance b } else x) = x from if_neg hxid]
          rw [findByNumber_setBal_id]
          by_cases hcond : (findByNumber s x.accountNumber).map (fun y => y.id) =
              some x.id
          · rw [if_pos hcond, if_pos hcond]
            have hNx : x.accountNumber ≠ N := by
              intro he
              rw [he, hn] at hcond
              dsimp only [Option.map] at hcond
              simp only [Option.some.injEq] at hcond
              exact hxid (by simp [hcond])
            have htr : trace x.accountNumber (r :: rest) = trace x.accountNumber rest := by
              rw [trace_cons, ht]
              dsimp only
              rw [if_neg (fun he => hNx he.symm)]
            rw [htr]
          · rw [if_neg hcond, if_neg hcond]

/-!
## Balances after an arbitrary fault-free run
-/

theorem findByNumber_accounts_eq {s' s : Store} (h : s'.accounts = s.accounts)
    (n : String) : findByNumber s' n = findByNumber s n := by
  unfold findByNumber
  rw [h]

theorem runRow_none_accounts (now : ℕ) (s : Store) (r : Row) :
    (rowTouch r = none ∧ (runRow now none s r).1.accounts = s.accounts) ∨
    (∃ N b, rowTouch r = some (N, b) ∧
      ((∃ uid, findByNumber s N = none ∧
          (runRow now none s r).1.accounts =
            s.accounts ++ [mkAccount s.nextAccountId now N uid b]) ∨
       (∃ a, findByNumber s N = some a ∧
          (((runRow now none s r).1.accounts = s.accounts ∧
              balStep a.balance b = a.balance) ∨
           ((runRow now none s r).1.accounts = s.accounts.map
              (fun x => if x.id == a.id then { x with balance := b } else x) ∧
              balStep a.balance b = b))))) := by
  cases hg : rowGate r with
  | none =>
      refine Or.inl ⟨rowTouch_of_gate_none hg, ?_⟩
      rw [runRow_of_gate_none hg]
  | some p =>
      obtain ⟨fn, an⟩ := p
      rw [runRow_of_gate_some hg]
      obtain ⟨s₁, uid, hup, hacc1, hnext1, -⟩ :=
        userPhase_none_ok s fn (rowKey an).1 (rowKey an).2
      rw [hup]
      dsimp only
      cases hc : chooseBalance (clean_number r.c2) (clean_number r.c4) with
      | error m => exact Or.inl ⟨rowTouch_of_choose_error hg hc, hacc1⟩
      | ok b =>
          have ht := rowTouch_of_choose_ok hg hc
          refine Or.inr ⟨an, b, ht, ?_⟩
          unfold acctPhase
          simp only [faultAt_none]
          rw [findByNumber_accounts_eq hacc1]
          cases hn : findByNumber s an with
          | none =>
              dsimp only
              refine Or.inl ⟨uid, rfl, ?_⟩
              rw [addAccount_accounts, hacc1, hnext1]
          | some a =>
              dsimp only
              refine Or.inr ⟨a, rfl, ?_⟩
              cases hp : pyNe b a.balance with
              | error m => exact Or.inl ⟨hacc1, pyNe_error_balStep hp⟩
              | ok upd =>
                  cases upd with
                  | false => exact Or.inl ⟨hacc1, pyNe_false_balStep hp⟩
                  | true =>
                      refine Or.inr ⟨?_, pyNe_true_balStep hp⟩
                      rw [setBal_accounts, hacc1]

theorem storeRun_balance (now : ℕ → ℕ) :
    ∀ (rows : List Row) (s : Store) (idx : ℕ) (N : String) (a : UserAccount),
      WF s → findByNumber s N = some a →
      ∃ a', findByNumber (storeRun now noFault s idx rows) N = some a' ∧
        a'.id = a.id ∧
        a'.balance = List.foldl balStep a.balance (trace N rows) := by
  intro rows
  induction rows with
  | nil => intro s idx N a hwf hn; exact ⟨a, hn, rfl, rfl⟩
  | cons r rest ih =>
      intro s idx N a hwf hn
      have hwf' := WF_runRow (now idx) none s r hwf
      have hstep : storeRun now noFault s idx (r :: rest) =
          storeRun now noFault (runRow (now idx) none s r).1 (idx + 1) rest := rfl
      rcases runRow_none_accounts (now idx) s r with ⟨htn, hacc⟩ | ⟨M, b, ht, hcase⟩
      · have hn' : findByNumber (runRow (now idx) none s r).1 N = some a := by
          rw [findByNumber_accounts_eq hacc]
          exact hn
        rw [hstep]
        obtain ⟨a', h1, h2, h3⟩ := ih _ (idx + 1) N a hwf' hn'
        refine ⟨a', h1, h2, ?_⟩
        rw [h3, trace_cons, htn]
      · by_cases hMN : M = N
        · subst hMN
          rcases hcase with ⟨uid, hnone, -⟩ | ⟨aM, hfound, hsub⟩
          · rw [hnone] at hn
            exact absurd hn (by simp)
          · have haM : aM = a := by
              rw [hfound] at hn
              exact Option.some.inj hn
            subst haM
            rcases hsub with ⟨hacc, hbal⟩ | ⟨hacc, hbal⟩
            · have hn' : findByNumber (runRow (now idx) none s r).1 M = some aM := by
                rw [findByNumber_accounts_eq hacc]
                exact hn
              rw [hstep]
              obtain ⟨a', h1, h2, h3⟩ := ih _ (idx + 1) M aM hwf' hn'
              refine ⟨a', h1, h2, ?_⟩
              rw [h3, trace_cons, ht]
              dsimp only
              rw [if_pos rfl, List.foldl_cons, hbal]
            · have hn' : findByNumber (runRow (now idx) none s r).1 M =
                  some { aM with balance := b } := by
                unfold findByNumber at hn ⊢
                rw [hacc]
                rw [find?_map_pres _ _
                  (fun x => by by_cases h : x.id == aM.id <;> simp [h]), hn]
                dsimp only [Option.map]
                rw [show (if aM.id == aM.id then { aM with balance := b } else aM) =
                  { aM with balance := b } from if_pos (by simp)]
              rw [hstep]
              obtain ⟨a', h1, h2, h3⟩ := ih _ (idx + 1) M _ hwf' hn'
              refine ⟨a', h1, h2, ?_⟩
              rw [h3, trace_cons, ht]
              dsimp only
              rw [if_pos rfl, List.foldl_cons, hbal]
        · have hn' : findByNumber (runRow (now idx) none s r).1 N = some a := by
            rcases hcase with ⟨uid, hnone, hacc⟩ | ⟨aM, hfound, hsub⟩
            · unfold findByNumber at hn ⊢
              rw [hacc, List.find?_append, hn]
              rfl
            · rcases hsub with ⟨hacc, -⟩ | ⟨hacc, -⟩
              · rw [findByNumber_accounts_eq hacc]
                exact hn
              · obtain ⟨haM_mem, haM_num⟩ := mem_of_findByNumber hfound
                obtain ⟨ha_mem, ha_num⟩ := mem_of_findByNumber hn
                have hne : a.id ≠ aM.id := by
                  intro he
                  have heq := eq_of_mem_of_id hwf ha_mem haM_mem he
                  exact hMN (by rw [← haM_num, ← heq, ha_num])
                unfold findByNumber at hn ⊢
                rw [hacc]
                rw [find?_map_pres _ _
                  (fun x => by by_cases h : x.id == aM.id <;> simp [h]), hn]
                dsimp only [Option.map]
                rw [show (if a.id == aM.id then { a with balance := b } else a) = a from
                  if_neg (by simpa using hne)]
          rw [hstep]
          obtain ⟨a', h1, h2, h3⟩ := ih _ (idx + 1) N a hwf' hn'
          refine ⟨a', h1, h2, ?_⟩
          rw [h3, trace_cons, ht]
          dsimp only
          rw [if_neg hMN]

theorem storeRun_balance_new (now : ℕ → ℕ) :
    ∀ (rows : List Row) (s : Store) (idx : ℕ) (N : String),
      WF s → findByNumber s N = none →
      (trace N rows = [] ∧
        findByNumber (storeRun now noFault s idx rows) N = none) ∨
      (∃ b post a', trace N rows = b :: post ∧
        findByNumber (storeRun now noFault s idx rows) N = some a' ∧
        a'.balance = List.foldl balStep b post) := by
  intro rows
  induction rows with
  | nil => intro s idx N hwf hn; exact Or.inl ⟨rfl, hn⟩
  | cons r rest ih =>
      intro s idx N hwf hn
      have hwf' := WF_runRow (now idx) none s r hwf
      have hstep : storeRun now noFault s idx (r :: rest) =
          storeRun now noFault (runRow (now idx) none s r).1 (idx + 1) rest := rfl
      rcases runRow_none_accounts (now idx) s r with ⟨htn, hacc⟩ | ⟨M, b, ht, hcase⟩
      · have hn' : findByNumber (runRow (now idx) none s r).1 N = none := by
          rw [findByNumber_accounts_eq hacc]
          exact hn
        rw [hstep]
        rcases ih _ (idx + 1) N hwf' hn' with ⟨h1, h2⟩ | ⟨b', post, a', h1, h2, h3⟩
        · refine Or.inl ⟨?_, h2⟩
          rw [trace_cons, htn, h1]
        · refine Or.inr ⟨b', post, a', ?_, h2, h3⟩
          rw [trace_cons, htn, h1]
      · by_cases hMN : M = N
        · subst hMN
          rcases hcase with ⟨uid, -, hacc⟩ | ⟨aM, hfound, -⟩
          · have hn' : findByNumber (runRow (now idx) none s r).1 M =
                some (mkAccount s.nextAccountId (now idx) M uid b) := by
              unfold findByNumber at hn ⊢
              rw [hacc, List.find?_append, hn]
              simp [mkAccount]
            rw [hstep]
            obtain ⟨a', h1, -, h3⟩ :=
              storeRun_balance now rest _ (idx + 1) M _ hwf' hn'
            refine Or.inr ⟨b, trace M rest, a', ?_, h1, ?_⟩
            · rw [trace_cons, ht]
              dsimp only
              rw [if_pos rfl]
            · rw [h3]
              rfl
          · rw [hfound] at hn
            exact absurd hn (by simp)
        · have hn' : findByNumber (runRow (now idx) none s r).1 N = none := by
            rcases hcase with ⟨uid, -, hacc⟩ | ⟨aM, hfound, hsub⟩
            · unfold findByNumber at hn ⊢
              rw [hacc, List.find?_append, hn]
              simp [mkAccount, hMN]
            · rcases hsub with ⟨hacc, -⟩ | ⟨hacc, -⟩
              · rw [findByNumber_accounts_eq hacc]
                exact hn
              · unfold findByNumber at hn ⊢
                rw [hacc]
                rw [find?_map_pres _ _
                  (fun x => by by_cases h : x.id == aM.id <;> simp [h]), hn]
                rfl
          rw [hstep]
          rcases ih _ (idx + 1) N hwf' hn' with ⟨h1, h2⟩ | ⟨b', post, a', h1, h2, h3⟩
          · refine Or.inl ⟨?_, h2⟩
            rw [trace_cons, ht]
            dsimp only
            rw [if_neg hMN, h1]
          · refine Or.inr ⟨b', post, a', ?_, h2, h3⟩
            rw [trace_cons, ht]
            dsimp only
            rw [if_neg hMN, h1]

theorem stepRow_store (now : ℕ → ℕ) (faults : ℕ → Option (FaultSite × String))
    (st : RunState) (idx : ℕ) (r : Row) :
    (stepRow now faults st idx r).store =
      (runRow (now idx) (faults idx) st.store r).1 := by
  unfold stepRow
  cases hrr : runRow (now idx) (faults idx) st.store r with
  | mk s' res => cases res <;> rfl

theorem runFrom_store (now : ℕ → ℕ) (faults : ℕ → Option (FaultSite × String)) :
    ∀ (rows : List Row) (st : RunState) (idx : ℕ),
      (runFrom now faults st idx rows).store = storeRun now faults st.store idx rows := by
  intro rows
  induction rows with
  | nil => intro st idx; rfl
  | cons r rest ih =>
      intro st idx
      have h : runFrom now faults st idx (r :: rest) =
          runFrom now faults (stepRow now faults st idx r) (idx + 1) rest := rfl
      rw [h, ih, stepRow_store]
      rfl

/-- **C1.**  Idempotence of the reconciliation: running the loop a second
time over the same input rows, against the store state left by the first
run, leaves the store unchanged — every person already matches by id
number or contact number so no second person is created, every account
number is already present so no second account is created, and every
balance has already converged to the last-computed value so every balance
comparison finds equality (or deterministically re-errs) and the final
state coincides.  `now₁`/`now₂` are the per-row import timestamps of the
two runs, which may differ arbitrarily. -/
theorem reconciliation_idempotent (now₁ now₂ : ℕ → ℕ) (rows : List Row)
    (s : Store) (hwf : WF s) :
    (runRows now₂ noFault (runRows now₁ noFault s rows).store rows).store =
      (runRows now₁ noFault s rows).store := by
  have hproj : ∀ (now : ℕ → ℕ) (s' : Store),
      (runRows now noFault s' rows).store = storeRun now noFault s' 0 rows :=
    fun now s' => runFrom_store now noFault rows ⟨s', 0, 0, [], []⟩ 0
  simp only [hproj]
  have hwf₁ : WF (storeRun now₁ noFault s 0 rows) :=
    WF_storeRun now₁ noFault rows s 0 hwf
  obtain ⟨husat, hasat⟩ := storeRun_sat now₁ rows s 0
  rw [storeRun_saturated now₂ rows (storeRun now₁ noFault s 0 rows) 0 hwf₁ husat hasat]
  have hid : (storeRun now₁ noFault s 0 rows).accounts.map (fun a =>
      if (findByNumber (storeRun now₁ noFault s 0 rows) a.accountNumber).map
          (fun x => x.id) = some a.id
      then { a with balance := List.foldl balStep a.balance (trace a.accountNumber rows) }
      else a) = (storeRun now₁ noFault s 0 rows).accounts := by
    apply map_id_of
    intro x hx
    by_cases hcond : (findByNumber (storeRun now₁ noFault s 0 rows)
        x.accountNumber).map (fun y => y.id) = some x.id
    · rw [if_pos hcond]
      cases hy : findByNumber (storeRun now₁ noFault s 0 rows) x.accountNumber with
      | none => rw [hy] at hcond; exact absurd hcond (by simp)
      | some y =>
          rw [hy] at hcond
          dsimp only [Option.map] at hcond
          have hyx : y = x :=
            eq_of_mem_of_id hwf₁ (mem_of_findByNumber hy).1 hx (Option.some.inj hcond)
          have hfx : findByNumber (storeRun now₁ noFault s 0 rows) x.accountNumber =
              some x := by
            rw [hy, hyx]
          have hfix : List.foldl balStep x.balance (trace x.accountNumber rows) =
              x.balance := by
            cases h₀ : findByNumber s x.accountNumber with
            | some a₀ =>
                obtain ⟨a', h1, -, h3⟩ :=
                  storeRun_balance now₁ rows s 0 x.accountNumber a₀ hwf h₀
                have hax : a' = x := by
                  rw [hfx] at h1
                  exact (Option.some.inj h1).symm
                rw [hax] at h3
                rw [h3, foldl_balStep_self]
            | none =>
                rcases storeRun_balance_new now₁ rows s 0 x.accountNumber hwf h₀ with
                  ⟨htr, hnone⟩ | ⟨b, post, a', htr, h1, h3⟩
                · rw [hfx] at hnone
                  exact absurd hnone (by simp)
                · have hax : a' = x := by
                    rw [hfx] at h1
                    exact (Option.some.inj h1).symm
                  rw [hax] at h3
                  rw [htr, h3, foldl_balStep_create]
          rw [hfix]
    · rw [if_neg hcond]
  rw [hid]

theorem reconciliation_idempotent_witness :
    (runRows (fun _ => 1) noFault
        (runRows (fun _ => 0) noFault emptyStore
          [⟨Cell.str "Ram Shrestha", Cell.str "123456", Cell.str "100", Cell.str "150"⟩,
           ⟨Cell.str "", Cell.str "999", Cell.str "0", Cell.str "0"⟩]).store
        [⟨Cell.str "Ram Shrestha", Cell.str "123456", Cell.str "100", Cell.str "150"⟩,
         ⟨Cell.str "", Cell.str "999", Cell.str "0", Cell.str "0"⟩]).store =
      (runRows (fun _ => 0) noFault emptyStore
        [⟨Cell.str "Ram Shrestha", Cell.str "123456", Cell.str "100", Cell.str "150"⟩,
         ⟨Cell.str "", Cell.str "999", Cell.str "0", Cell.str "0"⟩]).store :=
  reconciliation_idempotent (fun _ => 0) (fun _ => 1)
    [⟨Cell.str "Ram Shrestha", Cell.str "123456", Cell.str "100", Cell.str "150"⟩,
     ⟨Cell.str "", Cell.str "999", Cell.str "0", Cell.str "0"⟩]
    emptyStore ⟨by simp [emptyStore], by simp [emptyStore]⟩
